import Mathlib

/-!
Verification development for the SearchBot repository.

Strings of the Python source are modelled as `List Char` (Python strings are
sequences of Unicode code points, as are Lean `List Char` values).  Byte
counts are computed through an explicit UTF-8 encoder.  Machine integers of
the source are modelled as `Nat`/`Int`; the source never relies on overflow.
-/

namespace Py

/-- A Python string: a sequence of Unicode code points. -/
abbrev Str := List Char

/-- One decimal digit character (for `n < 10`; other inputs take the last branch). -/
def digitCh (n : Nat) : Char :=
  if n = 0 then '0' else if n = 1 then '1' else if n = 2 then '2'
  else if n = 3 then '3' else if n = 4 then '4' else if n = 5 then '5'
  else if n = 6 then '6' else if n = 7 then '7' else if n = 8 then '8' else '9'

/-- Decimal digits of a natural number, fuel-driven so that it reduces in the kernel. -/
def natCharsAux : Nat → Nat → Str
  | 0, _ => []
  | fuel + 1, n =>
    if n < 10 then [digitCh n]
    else natCharsAux fuel (n / 10) ++ [digitCh (n % 10)]

/-- Decimal representation of a natural number (same characters as Python `str(n)` for `n ≥ 0`). -/
def natChars (n : Nat) : Str := natCharsAux (n + 1) n

/-- Decimal representation of an integer (Python `str(i)` / `json.dumps(i)`). -/
def intChars (i : Int) : Str :=
  if i < 0 then '-' :: natChars i.natAbs else natChars i.natAbs

theorem digitCh_toNat_lt (n : Nat) : (digitCh n).toNat < 128 := by
  unfold digitCh; split_ifs <;> decide

theorem digitCh_toNat_ge (n : Nat) : 0x20 ≤ (digitCh n).toNat := by
  unfold digitCh; split_ifs <;> decide

theorem natCharsAux_length_le :
    ∀ fuel n k, n < 10 ^ k → 0 < k → n < fuel → (natCharsAux fuel n).length ≤ k := by
  intro fuel
  induction fuel with
  | zero => intro n k _ _ hfuel; omega
  | succ f ih =>
    intro n k hn hpos hfuel
    unfold natCharsAux
    split
    · simpa using hpos
    · rename_i h10
      push_neg at h10
      have hk2 : 2 ≤ k := by
        by_contra hcon
        have hk1 : k = 1 := by omega
        subst hk1
        simp at hn
        omega
      have hpow : 10 ^ k = 10 * 10 ^ (k - 1) := by
        have hh : k - 1 + 1 = k := by omega
        calc 10 ^ k = 10 ^ (k - 1 + 1) := by rw [hh]
        _ = 10 ^ (k - 1) * 10 := pow_succ 10 (k - 1)
        _ = 10 * 10 ^ (k - 1) := mul_comm _ _
      have hdiv : n / 10 < 10 ^ (k - 1) := by
        apply Nat.div_lt_of_lt_mul
        rw [hpow] at hn
        exact hn
      have hlt : n / 10 < n := Nat.div_lt_self (by omega) (by omega)
      have := ih (n / 10) (k - 1) hdiv (by omega) (by omega)
      simp only [List.length_append, List.length_singleton]
      omega

theorem natChars_length_le {n k : Nat} (hn : n < 10 ^ k) (hpos : 0 < k) :
    (natChars n).length ≤ k :=
  natCharsAux_length_le (n + 1) n k hn hpos (by omega)

theorem natChars_length_pos (n : Nat) : 0 < (natChars n).length := by
  unfold natChars natCharsAux
  split
  · simp
  · simp

/-- UTF-8 encoding of one code point. -/
def utf8Ch (c : Char) : List Nat :=
  let v := c.toNat
  if v < 0x80 then [v]
  else if v < 0x800 then [0xC0 + v / 64, 0x80 + v % 64]
  else if v < 0x10000 then [0xE0 + v / 4096, 0x80 + v / 64 % 64, 0x80 + v % 64]
  else [0xF0 + v / 262144, 0x80 + v / 4096 % 64, 0x80 + v / 64 % 64, 0x80 + v % 64]

/-- UTF-8 encoding of a string, as a byte list. -/
def utf8 (s : Str) : List Nat := (s.map utf8Ch).flatten

/-- Number of UTF-8 bytes of a string (Python `len(s.encode("utf-8"))`). -/
def utf8Len (s : Str) : Nat := (utf8 s).length

theorem utf8Ch_ascii {c : Char} (h : c.toNat < 0x80) : utf8Ch c = [c.toNat] := by
  unfold utf8Ch
  simp [h]

/-- On all-ASCII strings the UTF-8 byte count equals the character count. -/
theorem utf8Len_ascii {s : Str} (h : ∀ c ∈ s, c.toNat < 0x80) :
    utf8Len s = s.length := by
  induction s with
  | nil => rfl
  | cons c t ih =>
    have hc : c.toNat < 0x80 := h c (by simp)
    have ht := ih (fun x hx => h x (by simp [hx]))
    simp only [utf8Len, utf8, List.map_cons, List.flatten_cons, List.length_append,
      List.length_cons] at *
    rw [utf8Ch_ascii hc]
    simp only [List.length_singleton]
    omega

theorem utf8_append (a b : Str) : utf8 (a ++ b) = utf8 a ++ utf8 b := by
  simp [utf8]

theorem utf8Len_append (a b : Str) : utf8Len (a ++ b) = utf8Len a + utf8Len b := by
  simp [utf8Len, utf8_append]


/-- Whether a byte is a UTF-8 continuation byte (`b & 0xC0 == 0x80`). -/
def isContByte (b : Nat) : Bool := 0x80 ≤ b && b < 0xC0

/-- Make a `Char` from a code point (total; invalid inputs give `'\0'`, as `Char.ofNat`). -/
def mkChar (n : Nat) : Char := Char.ofNat n

/-- Decoder state: `none` = expecting a lead byte; `some (remaining, acc, seqLen)`
= inside a multi-byte sequence with `remaining` continuation bytes still due. -/
abbrev DecState := Option (Nat × Nat × Nat)

/-- Handle one lead byte: characters emitted and the next state. -/
def decLead (repl : Str) (b : Nat) : Str × DecState :=
  if b < 0x80 then ([mkChar b], none)
  else if b < 0xC2 then (repl, none)
  else if b < 0xE0 then ([], some (1, b - 0xC0, 2))
  else if b < 0xF0 then ([], some (2, b - 0xE0, 3))
  else if b < 0xF5 then ([], some (3, b - 0xF0, 4))
  else (repl, none)

/-- Validity of a completed multi-byte sequence of length `seqLen` with value `v`
(rejects overlong encodings, surrogates and out-of-range values). -/
def decValid (seqLen v : Nat) : Bool :=
  if seqLen = 2 then true
  else if seqLen = 3 then 0x800 ≤ v && !(0xD800 ≤ v && v < 0xE000)
  else 0x10000 ≤ v && v < 0x110000

/-- One byte at a time UTF-8 decoder; `repl` is emitted for an invalid sequence
(`[]` models Python `errors="ignore"`, a replacement character models `errors="replace"`;
only its behaviour on valid input matters for the theorems below). -/
def utf8DecodeWith (repl : Str) : DecState → List Nat → Str
  | none, [] => []
  | some _, [] => repl
  | none, b :: bs =>
    let p := decLead repl b
    p.1 ++ utf8DecodeWith repl p.2 bs
  | some (remaining, acc, seqLen), b :: bs =>
    if isContByte b then
      let acc2 := acc * 64 + (b - 0x80)
      if remaining ≤ 1 then
        if decValid seqLen acc2 then mkChar acc2 :: utf8DecodeWith repl none bs
        else repl ++ utf8DecodeWith repl none bs
      else utf8DecodeWith repl (some (remaining - 1, acc2, seqLen)) bs
    else
      let p := decLead repl b
      repl ++ p.1 ++ utf8DecodeWith repl p.2 bs

/-- Python `bytes.decode("utf-8", errors="ignore")`. -/
def utf8DecodeIgnore (bs : List Nat) : Str := utf8DecodeWith [] none bs

/-- Python `bytes.decode("utf-8", errors="replace")`. -/
def utf8DecodeReplace (bs : List Nat) : Str := utf8DecodeWith [mkChar 0xFFFD] none bs

theorem char_toNat_valid (c : Char) :
    c.toNat < 0xD800 ∨ (0xDFFF < c.toNat ∧ c.toNat < 0x110000) := by
  have h := c.valid
  rcases h with h | h
  · left
    exact h
  · right
    exact ⟨h.1, h.2⟩

theorem mkChar_toNat (c : Char) : mkChar c.toNat = c := by
  unfold mkChar
  exact Char.ofNat_toNat c

/-- Decoding a valid UTF-8 character encoding followed by anything yields that
character followed by the decode of the rest. -/
theorem utf8DecodeWith_encodeChar (repl : Str) (c : Char) (r : List Nat) :
    utf8DecodeWith repl none (utf8Ch c ++ r) = c :: utf8DecodeWith repl none r := by
  have hval := char_toNat_valid c
  unfold utf8Ch
  by_cases h1 : c.toNat < 0x80
  · simp only [h1, if_true]
    simp [utf8DecodeWith, decLead, h1, mkChar_toNat]
  · by_cases h2 : c.toNat < 0x800
    · simp only [h1, if_false, h2, if_true]
      set v := c.toNat with hv
      have hlead : ¬(0xC0 + v / 64 < 0x80) := by omega
      have hlead2 : ¬(0xC0 + v / 64 < 0xC2) := by
        have : 2 ≤ v / 64 := Nat.le_div_iff_mul_le (by omega) |>.mpr (by omega)
        omega
      have hlead3 : 0xC0 + v / 64 < 0xE0 := by
        have : v / 64 < 32 := Nat.div_lt_of_lt_mul (by omega)
        omega
      have hcont : isContByte (0x80 + v % 64) = true := by
        simp only [isContByte, Bool.and_eq_true, decide_eq_true_eq]
        constructor
        · omega
        · have := Nat.mod_lt v (show 0 < 64 by omega)
          omega
      have hval2 : (0xC0 + v / 64 - 0xC0) * 64 + (0x80 + v % 64 - 0x80) = v := by
        have h64 := Nat.div_add_mod v 64
        have := Nat.mod_lt v (show 0 < 64 by omega)
        omega
      simp only [List.cons_append, utf8DecodeWith, decLead, hlead, if_false, hlead2, hlead3,
        if_true, List.nil_append, hcont, hval2]
      simp only [show (1 : Nat) ≤ 1 from le_refl 1, if_true, decValid,
        if_true, hv, mkChar_toNat]
      simp
    · by_cases h3 : c.toNat < 0x10000
      · simp only [h1, if_false, h2, h3, if_true]
        set v := c.toNat with hv
        have hd1 : v / 4096 < 16 := Nat.div_lt_of_lt_mul (by omega)
        have hlead : ¬(0xE0 + v / 4096 < 0x80) := by omega
        have hlead2 : ¬(0xE0 + v / 4096 < 0xC2) := by omega
        have hlead3 : ¬(0xE0 + v / 4096 < 0xE0) := by omega
        have hlead4 : 0xE0 + v / 4096 < 0xF0 := by omega
        have hm1 := Nat.mod_lt (v / 64) (show 0 < 64 by omega)
        have hm2 := Nat.mod_lt v (show 0 < 64 by omega)
        have hcont1 : isContByte (0x80 + v / 64 % 64) = true := by
          simp only [isContByte, Bool.and_eq_true, decide_eq_true_eq]
          omega
        have hcont2 : isContByte (0x80 + v % 64) = true := by
          simp only [isContByte, Bool.and_eq_true, decide_eq_true_eq]
          omega
        have e1 : v / 4096 = v / 64 / 64 := by
          rw [Nat.div_div_eq_div_mul]
        have e2 := Nat.div_add_mod (v / 64) 64
        have e3 := Nat.div_add_mod v 64
        have hacc1 : (0xE0 + v / 4096 - 0xE0) * 64 + (0x80 + v / 64 % 64 - 0x80) = v / 64 := by
          omega
        have hacc2 : v / 64 * 64 + (0x80 + v % 64 - 0x80) = v := by
          omega
        have hvalid : decValid 3 v = true := by
          simp only [decValid, show (3:Nat) ≠ 2 by omega, if_false, if_true,
            Bool.and_eq_true, decide_eq_true_eq, Bool.not_eq_true']
          constructor
          · omega
          · simp only [Bool.and_eq_false_iff, decide_eq_false_iff_not]
            omega
        simp only [List.cons_append, utf8DecodeWith, decLead, hlead, if_false, hlead2, hlead3,
          hlead4, if_true, List.nil_append, hcont1]
        simp only [show ¬((2:Nat) ≤ 1) by omega, if_false, hacc1]
        simp only [utf8DecodeWith, hcont2, if_true, show (1:Nat) ≤ 1 from le_refl 1, hacc2,
          hvalid, hv, mkChar_toNat]
        simp
      · simp only [h1, if_false, h2, h3, if_false]
        set v := c.toNat with hv
        have hrange : v < 0x110000 := by omega
        have hd1 : v / 262144 < 5 := Nat.div_lt_of_lt_mul (by omega)
        have hlead : ¬(0xF0 + v / 262144 < 0x80) := by omega
        have hlead2 : ¬(0xF0 + v / 262144 < 0xC2) := by omega
        have hlead3 : ¬(0xF0 + v / 262144 < 0xE0) := by omega
        have hlead4 : ¬(0xF0 + v / 262144 < 0xF0) := by omega
        have hlead5 : 0xF0 + v / 262144 < 0xF5 := by omega
        have hm1 := Nat.mod_lt (v / 4096) (show 0 < 64 by omega)
        have hm2 := Nat.mod_lt (v / 64) (show 0 < 64 by omega)
        have hm3 := Nat.mod_lt v (show 0 < 64 by omega)
        have hcont1 : isContByte (0x80 + v / 4096 % 64) = true := by
          simp only [isContByte, Bool.and_eq_true, decide_eq_true_eq]
          omega
        have hcont2 : isContByte (0x80 + v / 64 % 64) = true := by
          simp only [isContByte, Bool.and_eq_true, decide_eq_true_eq]
          omega
        have hcont3 : isContByte (0x80 + v % 64) = true := by
          simp only [isContByte, Bool.and_eq_true, decide_eq_true_eq]
          omega
        have e1 : v / 262144 = v / 4096 / 64 := by
          rw [Nat.div_div_eq_div_mul]
        have e1b : v / 4096 = v / 64 / 64 := by
          rw [Nat.div_div_eq_div_mul]
        have e2 := Nat.div_add_mod (v / 4096) 64
        have e2b := Nat.div_add_mod (v / 64) 64
        have e3 := Nat.div_add_mod v 64
        have hacc1 : (0xF0 + v / 262144 - 0xF0) * 64 + (0x80 + v / 4096 % 64 - 0x80)
            = v / 4096 := by
          omega
        have hacc2 : v / 4096 * 64 + (0x80 + v / 64 % 64 - 0x80) = v / 64 := by
          omega
        have hacc3 : v / 64 * 64 + (0x80 + v % 64 - 0x80) = v := by
          omega
        have hvalid : decValid 4 v = true := by
          simp only [decValid, show (4:Nat) ≠ 2 by omega, show (4:Nat) ≠ 3 by omega, if_false,
            Bool.and_eq_true, decide_eq_true_eq]
          omega
        simp only [List.cons_append, utf8DecodeWith, decLead, hlead, if_false, hlead2, hlead3,
          hlead4, hlead5, if_true, List.nil_append, hcont1]
        simp only [show ¬((3:Nat) ≤ 1) by omega, if_false, hacc1]
        simp only [utf8DecodeWith, hcont2, if_true, show ¬((2:Nat) ≤ 1) by omega, if_false,
          hacc2]
        simp only [utf8DecodeWith, hcont3, if_true, show (1:Nat) ≤ 1 from le_refl 1, hacc3,
          hvalid, hv, mkChar_toNat]
        simp

/-- Decoding the encoding of a whole string followed by anything. -/
theorem utf8DecodeWith_encode (repl : Str) (s : Str) (r : List Nat) :
    utf8DecodeWith repl none (utf8 s ++ r) = s ++ utf8DecodeWith repl none r := by
  induction s with
  | nil => simp [utf8]
  | cons c t ih =>
    have hsplit : utf8 (c :: t) = utf8Ch c ++ utf8 t := by
      simp [utf8]
    rw [hsplit, List.append_assoc, utf8DecodeWith_encodeChar, ih]
    rfl

theorem utf8DecodeWith_encode_nil (repl : Str) (s : Str) :
    utf8DecodeWith repl none (utf8 s) = s := by
  have h := utf8DecodeWith_encode repl s []
  simpa [utf8DecodeWith] using h

end Py

/-! ## Keyboard / callback builder (`src/keyboards.py`)

`json.dumps(payload, separators=(",", ":"))` with the default `ensure_ascii=True`
is modelled by `Keyboards.dumps`; dictionaries preserve insertion order, so a
payload is an ordered association list. -/

namespace Keyboards

open Py

/-- A JSON value occurring in a callback payload (strings and integers only). -/
inductive JVal where
  | s (v : Str)
  | n (v : Int)
deriving DecidableEq

/-- An ordered dictionary, as Python `dict` preserves insertion order. -/
abbrev Payload := List (String × JVal)

/-- Lowercase hexadecimal digit. -/
def hexLower (n : Nat) : Char :=
  if n < 10 then digitCh n
  else if n = 10 then 'a' else if n = 11 then 'b' else if n = 12 then 'c'
  else if n = 13 then 'd' else if n = 14 then 'e' else 'f'

/-- A `\uXXXX` escape (lowercase hex, as CPython's `json`). -/
def uEsc (n : Nat) : Str :=
  ['\\', 'u', hexLower (n / 4096 % 16), hexLower (n / 256 % 16),
   hexLower (n / 16 % 16), hexLower (n % 16)]

/-- CPython `json` string escaping with `ensure_ascii=True`: two-character escapes
for the special set, literal characters for printable ASCII, `\uXXXX` otherwise
(surrogate pairs above the BMP). -/
def jsonEscapeChar (c : Char) : Str :=
  if c = '"' then ['\\', '"']
  else if c = '\\' then ['\\', '\\']
  else if c.toNat = 8 then ['\\', 'b']
  else if c.toNat = 9 then ['\\', 't']
  else if c.toNat = 10 then ['\\', 'n']
  else if c.toNat = 12 then ['\\', 'f']
  else if c.toNat = 13 then ['\\', 'r']
  else if 0x20 ≤ c.toNat ∧ c.toNat ≤ 0x7E then [c]
  else if c.toNat < 0x10000 then uEsc c.toNat
  else uEsc (0xD800 + (c.toNat - 0x10000) / 1024) ++ uEsc (0xDC00 + (c.toNat - 0x10000) % 1024)

/-- A JSON string literal: quoted, escaped. -/
def jsonQuote (s : Str) : Str := '"' :: (s.map jsonEscapeChar).flatten ++ ['"']

/-- Serialize one JSON value. -/
def dumpVal : JVal → Str
  | .s v => jsonQuote v
  | .n i => intChars i

/-- Serialize one `key:value` pair. -/
def dumpPair (e : String × JVal) : Str := jsonQuote e.1.data ++ ':' :: dumpVal e.2

/-- Serialize the comma-separated entries. -/
def dumpEntries : Payload → Str
  | [] => []
  | [e] => dumpPair e
  | e :: rest => dumpPair e ++ ',' :: dumpEntries rest

/-- `json.dumps(payload, separators=(",", ":"))`. -/
def dumps (q : Payload) : Str := '{' :: dumpEntries q ++ ['}']

/-- Python `payload.get(key)`. -/
def pget (q : Payload) (k : String) : Option JVal := (q.find? (fun e => e.1 == k)).map (·.2)

/-- Python `payload.get(key, default)`. -/
def pgetD (q : Payload) (k : String) (d : JVal) : JVal := (pget q k).getD d

/-- Python `payload[key] = v` on an existing key (keeps the key's position). -/
def pset (q : Payload) (k : String) (v : JVal) : Payload :=
  q.map (fun e => if e.1 == k then (e.1, v) else e)

/-- Python `payload.pop(key, None)` / dict comprehension dropping `key`. -/
def premove (q : Payload) (k : String) : Payload := q.filter (fun e => !(e.1 == k))

/-- Python truthiness of a looked-up payload value. -/
def truthy : Option JVal → Bool
  | none => false
  | some (.s v) => !v.isEmpty
  | some (.n i) => i != 0

/-- Whether the payload's action tag is `comic_nav`/`cn`. -/
def isCn (q : Payload) : Bool :=
  match pget q "a" with
  | some (.s v) => v == "comic_nav".data || v == "cn".data
  | _ => false

/-- Drop trailing UTF-8 continuation bytes
(the `while truncated and (truncated[-1] & 0xC0) == 0x80` loop). -/
def stripCont (bs : List Nat) : List Nat :=
  (bs.reverse.dropWhile (fun b => isContByte b)).reverse

/-- The keyword-truncation step of `json_dumps` (source lines 129–160): byte-truncate
`payload["k"]` to the space left by the other fields minus an 8-byte reserve, or drop
`"k"` when no space is left.  Mutation of the Python dict is modelled functionally. -/
def truncStep (payload : Payload) : Payload :=
  match pget payload "k" with
  | some (.s k) =>
    if k ≠ [] then
      let other := premove payload "k"
      let otherLen : Int := utf8Len (dumps other)
      let maxKb : Int := 64 - otherLen - 8
      if 0 < maxKb then
        let kb := utf8 k
        if (kb.length : Int) > maxKb then
          pset payload "k" (.s (utf8DecodeIgnore (stripCont (kb.take maxKb.toNat))))
        else payload
      else premove payload "k"
    else payload
  | _ => payload

/-- The minimal field set used by the last-resort path (source lines 171–176). -/
def minimalOf (payload : Payload) : Payload :=
  [("a", pgetD payload "a" (.s [])),
   ("f", pgetD payload "f" (.s "all".data)),
   ("p", pgetD payload "p" (.n 1)),
   ("u", pgetD payload "u" (.n 0))]

/-- The minimal-format path (source lines 170–187), entered when the payload still
exceeds 64 bytes after keyword truncation and is not a comic-nav payload.  (A
non-string truthy `"k"` value would raise in Python; no payload of this program
carries one, and the model then falls to the minimal form.) -/
def jsonDumpsStep2 (payload1 : Payload) : Str :=
  let minimal := minimalOf payload1
  match pget payload1 "k" with
  | some (.s k) =>
    if k ≠ [] then
      let test := minimal ++ [("k", JVal.s (k.take 15))]
      if utf8Len (dumps test) ≤ 64 then dumps test else dumps minimal
    else dumps minimal
  | _ => dumps minimal

/-- `keyboards.json_dumps`: serialize a callback payload, enforcing the 64-byte
Telegram limit by keyword truncation, keyword dropping, a minimal field set, and
(as a last resort, never reached for this program's payload shapes) a blind byte
truncation; comic-nav payloads that still exceed the limit are returned as-is. -/
def json_dumps (payload : Payload) : Str :=
  if utf8Len (dumps payload) ≤ 64 then dumps payload
  else if utf8Len (dumps (truncStep payload)) ≤ 64 then dumps (truncStep payload)
  else if isCn (truncStep payload) then dumps (truncStep payload)
  else if utf8Len (jsonDumpsStep2 (truncStep payload)) ≤ 64 then
    jsonDumpsStep2 (truncStep payload)
  else utf8DecodeIgnore ((utf8 (jsonDumpsStep2 (truncStep payload))).take 64)

/-- An inline button: display text plus either callback data or a URL. -/
structure InlineKeyboardButton where
  text : Str
  callback_data : Option Str := none
  url : Option Str := none

/-- `CATEGORY_BUTTONS` from the source. -/
def CATEGORY_BUTTONS : List (Str × Str) :=
  [("novel".data, "📚小说".data),
   ("audio".data, "🎧音频".data),
   ("comic".data, "💖漫画".data),
   ("all".data, "🔎全部".data)]

/-- `keyboards.build_filter_row`. -/
def build_filter_row (active_filter : Str) (keyword : Str) (_page : Int) (user_id : Int) :
    List InlineKeyboardButton :=
  CATEGORY_BUTTONS.map (fun vl =>
    let display := if active_filter = vl.1 then '✅' :: vl.2.drop 1 else vl.2
    let payload : Payload :=
      [("a", .s "filter".data), ("f", .s vl.1), ("k", .s keyword), ("p", .n 1),
       ("u", .n user_id)]
    { text := display, callback_data := some (json_dumps payload) })

/-- `keyboards.build_pagination_row`: always two buttons; the inactive side is a no-op. -/
def build_pagination_row (keyword : Str) (active_filter : Str) (page total_pages : Int)
    (user_id : Int) : List InlineKeyboardButton :=
  [if page > 1 then
    { text := "« 上一页".data,
      callback_data := some (json_dumps
        [("a", .s "page".data), ("dir", .s "prev".data), ("k", .s keyword),
         ("f", .s active_filter), ("p", .n (page - 1)), ("u", .n user_id)]) }
   else
    { text := "« 上一页".data, callback_data := some (json_dumps [("a", .s "noop".data)]) },
   if page < total_pages then
    { text := "下一页 »".data,
      callback_data := some (json_dumps
        [("a", .s "page".data), ("dir", .s "next".data), ("k", .s keyword),
         ("f", .s active_filter), ("p", .n (page + 1)), ("u", .n user_id)]) }
   else
    { text := "下一页 »".data, callback_data := some (json_dumps [("a", .s "noop".data)]) }]

/-- `keyboards.build_comic_nav_keyboard` (its single button row). -/
def build_comic_nav_keyboard (resource_id : Str) (page total_pages : Int) :
    List InlineKeyboardButton :=
  (if page > 1 then
    [{ text := "⬅️ 上一页".data,
       callback_data := some (json_dumps
         [("a", .s "cn".data), ("r", .s resource_id), ("p", .n (page - 1))]) }]
  else []) ++
  [{ text := intChars page ++ " / ".data ++ intChars total_pages ++ " 页".data,
     callback_data := some (json_dumps [("a", .s "noop".data)]) }] ++
  (if page < total_pages then
    [{ text := "下一页 ➡️".data,
       callback_data := some (json_dumps
         [("a", .s "cn".data), ("r", .s resource_id), ("p", .n (page + 1))]) }]
  else [])

/-- The property claimed of every produced callback string: it fits in the 64-byte
Telegram limit and is the JSON serialization of a well-formed payload object
(hence parses back). -/
def wellSized (s : Str) : Prop := utf8Len s ≤ 64 ∧ ∃ q : Payload, s = dumps q

end Keyboards

namespace Keyboards

open Py

theorem hexLower_toNat_lt (n : Nat) : (hexLower n).toNat < 0x80 := by
  unfold hexLower
  split_ifs
  · exact digitCh_toNat_lt n
  all_goals decide

theorem uEsc_ascii {n : Nat} : ∀ c ∈ uEsc n, c.toNat < 0x80 := by
  intro c hc
  simp only [uEsc, List.mem_cons, List.mem_singleton, List.not_mem_nil, or_false] at hc
  rcases hc with rfl | rfl | rfl | rfl | rfl | rfl
  · decide
  · decide
  · exact hexLower_toNat_lt _
  · exact hexLower_toNat_lt _
  · exact hexLower_toNat_lt _
  · exact hexLower_toNat_lt _

theorem jsonEscapeChar_ascii (c : Char) : ∀ x ∈ jsonEscapeChar c, x.toNat < 0x80 := by
  intro x hx
  unfold jsonEscapeChar at hx
  split_ifs at hx with h1 h2 h3 h4 h5 h6 h7 h8 h9
  all_goals try (simp only [List.mem_cons, List.mem_singleton, List.not_mem_nil,
    or_false] at hx; rcases hx with rfl | rfl <;> decide)
  · simp only [List.mem_singleton] at hx
    subst hx
    omega
  · exact uEsc_ascii x hx
  · rcases List.mem_append.mp hx with h | h
    · exact uEsc_ascii x h
    · exact uEsc_ascii x h

theorem natCharsAux_ascii : ∀ fuel n, ∀ c ∈ natCharsAux fuel n, c.toNat < 0x80 := by
  intro fuel
  induction fuel with
  | zero => intro n c hc; cases hc
  | succ f ih =>
    intro n c hc
    unfold natCharsAux at hc
    split at hc
    · simp only [List.mem_singleton] at hc
      subst hc
      exact digitCh_toNat_lt n
    · rcases List.mem_append.mp hc with h | h
      · exact ih _ c h
      · simp only [List.mem_singleton] at h
        subst h
        exact digitCh_toNat_lt _

theorem intChars_ascii (i : Int) : ∀ c ∈ intChars i, c.toNat < 0x80 := by
  intro c hc
  unfold intChars at hc
  split_ifs at hc
  · rcases List.mem_cons.mp hc with rfl | h
    · decide
    · exact natCharsAux_ascii _ _ c h
  · exact natCharsAux_ascii _ _ c hc

theorem jsonQuote_ascii (s : Str) : ∀ c ∈ jsonQuote s, c.toNat < 0x80 := by
  intro c hc
  simp only [jsonQuote] at hc
  rcases List.mem_cons.mp hc with rfl | hc2
  · decide
  rcases List.mem_append.mp hc2 with h | h
  · rcases List.mem_flatten.mp h with ⟨l, hl, hcl⟩
    rcases List.mem_map.mp hl with ⟨x, _, hxl⟩
    subst hxl
    exact jsonEscapeChar_ascii x c hcl
  · simp only [List.mem_singleton] at h
    subst h
    decide

theorem dumpVal_ascii (v : JVal) : ∀ c ∈ dumpVal v, c.toNat < 0x80 := by
  intro c hc
  cases v with
  | s w => exact jsonQuote_ascii w c hc
  | n i => exact intChars_ascii i c hc

theorem dumpPair_ascii (e : String × JVal) : ∀ c ∈ dumpPair e, c.toNat < 0x80 := by
  intro c hc
  simp only [dumpPair, List.mem_append, List.mem_cons] at hc
  rcases hc with h | rfl | h
  · exact jsonQuote_ascii _ c h
  · decide
  · exact dumpVal_ascii _ c h

theorem dumpEntries_ascii (q : Payload) : ∀ c ∈ dumpEntries q, c.toNat < 0x80 := by
  induction q with
  | nil => intro c hc; cases hc
  | cons e t ih =>
    intro c hc
    cases t with
    | nil => exact dumpPair_ascii e c hc
    | cons e2 t2 =>
      simp only [dumpEntries, List.mem_append, List.mem_cons] at hc
      rcases hc with h | rfl | h
      · exact dumpPair_ascii e c h
      · decide
      · exact ih c h

theorem dumps_ascii (q : Payload) : ∀ c ∈ dumps q, c.toNat < 0x80 := by
  intro c hc
  simp only [dumps] at hc
  rcases List.mem_cons.mp hc with rfl | hc2
  · decide
  rcases List.mem_append.mp hc2 with h | h
  · exact dumpEntries_ascii q c h
  · simp only [List.mem_singleton] at h
    subst h
    decide

/-- The serialized payload is pure ASCII, so its UTF-8 byte count is its length. -/
theorem utf8Len_dumps (q : Payload) : utf8Len (dumps q) = (dumps q).length :=
  utf8Len_ascii (dumps_ascii q)

end Keyboards

namespace Keyboards

open Py

theorem pget_pset_ne (q : Payload) (k k' : String) (v : JVal) (h : k' ≠ k) :
    pget (pset q k v) k' = pget q k' := by
  induction q with
  | nil => rfl
  | cons e t ih =>
    simp only [pset, List.map_cons, pget, List.find?] at *
    by_cases he : e.1 == k
    · have he' : e.1 = k := by simpa using he
      have hne : (e.1 == k') = false := by
        simp [he', Ne.symm h]
      simp only [he, if_true, hne]
      simp only [hne, Bool.false_eq_true, if_false] at *
      exact ih
    · simp only [he, Bool.false_eq_true, if_false]
      by_cases he2 : e.1 == k'
      · simp [he2]
      · simp only [he2, Bool.false_eq_true, if_false] at *
        exact ih

theorem pget_premove_ne (q : Payload) (k k' : String) (h : k' ≠ k) :
    pget (premove q k) k' = pget q k' := by
  induction q with
  | nil => rfl
  | cons e t ih =>
    simp only [premove, List.filter_cons, pget] at *
    by_cases he : e.1 == k
    · have he' : e.1 = k := by simpa using he
      have hne : (e.1 == k') = false := by
        simp [he', Ne.symm h]
      simp only [he, Bool.not_true, Bool.false_eq_true, if_false, List.find?, hne] at *
      exact ih
    · simp only [he, Bool.not_false, if_true, List.find?] at *
      by_cases he2 : e.1 == k'
      · simp [he2]
      · simp only [he2, Bool.false_eq_true, if_false] at *
        exact ih

theorem pget_truncStep_ne (q : Payload) (k' : String) (h : k' ≠ "k") :
    pget (truncStep q) k' = pget q k' := by
  unfold truncStep
  rcases hk : pget q "k" with _ | v
  · rfl
  · rcases v with w | i
    · dsimp only
      split_ifs
      · exact pget_pset_ne q "k" k' _ h
      · rfl
      · exact pget_premove_ne q "k" k' h
      · rfl
    · rfl

theorem minimalOf_truncStep (q : Payload) : minimalOf (truncStep q) = minimalOf q := by
  unfold minimalOf pgetD
  rw [pget_truncStep_ne q "a" (by decide), pget_truncStep_ne q "f" (by decide),
    pget_truncStep_ne q "p" (by decide), pget_truncStep_ne q "u" (by decide)]

theorem isCn_truncStep (q : Payload) : isCn (truncStep q) = isCn q := by
  unfold isCn
  rw [pget_truncStep_ne q "a" (by decide)]

theorem jsonDumpsStep2_wellSized (p1 : Payload)
    (hmin : utf8Len (dumps (minimalOf p1)) ≤ 64) : wellSized (jsonDumpsStep2 p1) := by
  unfold jsonDumpsStep2
  rcases hk : pget p1 "k" with _ | v
  · exact ⟨hmin, minimalOf p1, rfl⟩
  · rcases v with w | i
    · simp only
      split_ifs with h1 h2
      · exact ⟨h2, _, rfl⟩
      · exact ⟨hmin, minimalOf p1, rfl⟩
      · exact ⟨hmin, minimalOf p1, rfl⟩
    · exact ⟨hmin, minimalOf p1, rfl⟩

/-- Master lemma for `json_dumps`: a payload that is not a comic-nav payload and
whose minimal field set serializes within 64 bytes always yields a ≤ 64-byte
serialization of a well-formed payload (every branch of the policy returns the
serialization of some payload, and the blind byte-truncation fallback is
unreachable). -/
theorem json_dumps_wellSized (payload : Payload)
    (hcn : isCn payload = false)
    (hmin : utf8Len (dumps (minimalOf payload)) ≤ 64) :
    wellSized (json_dumps payload) := by
  unfold json_dumps
  split_ifs with h1 h2 h3 h4
  · exact ⟨h1, payload, rfl⟩
  · exact ⟨h2, truncStep payload, rfl⟩
  · rw [isCn_truncStep payload, hcn] at h3
    cases h3
  · exact jsonDumpsStep2_wellSized (truncStep payload)
      (by rw [minimalOf_truncStep]; exact hmin)
  · have hs := jsonDumpsStep2_wellSized (truncStep payload)
      (by rw [minimalOf_truncStep]; exact hmin)
    exact absurd hs.1 h4

/-- A payload already within the limit is returned unchanged. -/
theorem json_dumps_small (payload : Payload) (h : utf8Len (dumps payload) ≤ 64) :
    json_dumps payload = dumps payload := by
  unfold json_dumps
  rw [if_pos h]

end Keyboards

namespace Keyboards

open Py

theorem length_dumps (q : Payload) : (dumps q).length = 2 + (dumpEntries q).length := by
  simp only [dumps, List.length_cons, List.length_append, List.length_singleton,
    List.length_nil]
  omega

theorem length_dumpEntries_cons (e e2 : String × JVal) (t : Payload) :
    (dumpEntries (e :: e2 :: t)).length
      = (dumpPair e).length + 1 + (dumpEntries (e2 :: t)).length := by
  simp only [dumpEntries, List.length_append, List.length_cons]
  omega

theorem length_dumpEntries_one (e : String × JVal) :
    (dumpEntries [e]).length = (dumpPair e).length := rfl

theorem length_jsonQuote (s : Str) :
    (jsonQuote s).length = 2 + ((s.map jsonEscapeChar).flatten).length := by
  simp only [jsonQuote, List.length_cons, List.length_append, List.length_singleton,
    List.length_nil]
  omega

theorem length_dumpPair (k : String) (v : JVal) :
    (dumpPair (k, v)).length = (jsonQuote k.data).length + 1 + (dumpVal v).length := by
  simp only [dumpPair, List.length_append, List.length_cons]
  omega

theorem length_dumpVal_s (w : Str) : (dumpVal (.s w)).length = (jsonQuote w).length := rfl

theorem length_dumpVal_n (i : Int) : (dumpVal (.n i)).length = (intChars i).length := rfl

theorem intChars_length_le_nonneg (i : Int) (k : Nat) (h0 : 0 ≤ i)
    (h : i.natAbs < 10 ^ k) (hk : 0 < k) : (intChars i).length ≤ k := by
  unfold intChars
  rw [if_neg (by omega)]
  exact natChars_length_le h hk

/-- Byte bound for the minimal field set `{"a": .., "f": .., "p": .., "u": ..}`. -/
theorem dumps_min4_le (a f : Str) (p u : Int)
    (ha : ((a.map jsonEscapeChar).flatten).length ≤ 6)
    (hf : ((f.map jsonEscapeChar).flatten).length ≤ 5)
    (hp : (intChars p).length ≤ 7)
    (hu : (intChars u).length ≤ 20) :
    utf8Len (dumps [("a", JVal.s a), ("f", JVal.s f), ("p", JVal.n p), ("u", JVal.n u)])
      ≤ 64 := by
  rw [utf8Len_dumps, length_dumps, length_dumpEntries_cons, length_dumpEntries_cons,
    length_dumpEntries_cons, length_dumpEntries_one, length_dumpPair, length_dumpPair,
    length_dumpPair, length_dumpPair, length_dumpVal_s, length_dumpVal_s, length_dumpVal_n,
    length_dumpVal_n, length_jsonQuote a, length_jsonQuote f]
  have k1 : (jsonQuote "a".data).length = 3 := rfl
  have k2 : (jsonQuote "f".data).length = 3 := rfl
  have k3 : (jsonQuote "p".data).length = 3 := rfl
  have k4 : (jsonQuote "u".data).length = 3 := rfl
  rw [k1, k2, k3, k4]
  omega

/-- A character that JSON-escapes to itself. -/
def plainChar (c : Char) : Prop :=
  0x20 ≤ c.toNat ∧ c.toNat ≤ 0x7E ∧ c ≠ '"' ∧ c ≠ '\\'

instance (c : Char) : Decidable (plainChar c) := by
  unfold plainChar
  infer_instance

theorem jsonEscapeChar_plain {c : Char} (h : plainChar c) : jsonEscapeChar c = [c] := by
  obtain ⟨h1, h2, h3, h4⟩ := h
  unfold jsonEscapeChar
  rw [if_neg h3, if_neg h4, if_neg (by omega), if_neg (by omega), if_neg (by omega),
    if_neg (by omega), if_neg (by omega), if_pos ⟨h1, h2⟩]

theorem escLen_plain (s : Str) (h : ∀ c ∈ s, plainChar c) :
    ((s.map jsonEscapeChar).flatten).length = s.length := by
  induction s with
  | nil => rfl
  | cons c t ih =>
    simp only [List.map_cons, List.flatten_cons, List.length_append, List.length_cons]
    rw [jsonEscapeChar_plain (h c (by simp)), ih (fun x hx => h x (by simp [hx]))]
    simp only [List.length_singleton]
    omega

/-- Byte bound for a comic-nav payload with a plain, at most 36-character resource id. -/
theorem dumps_cn3_le (rid : Str) (p : Int)
    (hlen : rid.length ≤ 36) (hplain : ∀ c ∈ rid, plainChar c)
    (hp : (intChars p).length ≤ 6) :
    utf8Len (dumps [("a", JVal.s "cn".data), ("r", JVal.s rid), ("p", JVal.n p)]) ≤ 64 := by
  rw [utf8Len_dumps, length_dumps, length_dumpEntries_cons, length_dumpEntries_cons,
    length_dumpEntries_one, length_dumpPair, length_dumpPair, length_dumpPair,
    length_dumpVal_s, length_dumpVal_s, length_dumpVal_n, length_jsonQuote rid]
  have k1 : (jsonQuote "a".data).length = 3 := rfl
  have k2 : (jsonQuote "r".data).length = 3 := rfl
  have k3 : (jsonQuote "p".data).length = 3 := rfl
  have k4 : (jsonQuote "cn".data).length = 4 := rfl
  rw [k1, k2, k3, k4, escLen_plain rid hplain]
  omega

end Keyboards

namespace Keyboards

open Py

/-- C1: for every payload shape produced by the keyboard builder (filter row,
pager row, comic-nav row), with any keyword string (including arbitrarily long
mixed ASCII and multi-byte keywords), the serialized callback data returned by
`json_dumps` is at most 64 bytes when UTF-8 encoded and is the JSON serialization
of a well-formed payload object (so it parses back).  The non-keyword parameters
range over the values the program produces: an at most 36-character plain
resource id, category tags, positive pages below a million, and a nonnegative
user id below 10^20. -/
theorem C1_keyboard_callback_size
    (keyword active_filter f rid : Str) (page total_pages user_id : Int)
    (hf : f = "novel".data ∨ f = "audio".data ∨ f = "comic".data ∨ f = "all".data)
    (hu : 0 ≤ user_id) (hu2 : user_id < 100000000000000000000)
    (hp1 : 1 ≤ page) (hp2 : page < 1000000)
    (htp : total_pages < 1000000)
    (hrid_len : rid.length ≤ 36) (hrid : ∀ c ∈ rid, plainChar c) :
    (∀ b ∈ build_filter_row active_filter keyword page user_id,
      ∀ cd, b.callback_data = some cd → wellSized cd) ∧
    (∀ b ∈ build_pagination_row keyword f page total_pages user_id,
      ∀ cd, b.callback_data = some cd → wellSized cd) ∧
    (∀ b ∈ build_comic_nav_keyboard rid page total_pages,
      ∀ cd, b.callback_data = some cd → wellSized cd) := by
  have e20 : (10 : Nat) ^ 20 = 100000000000000000000 := by norm_num
  have e7 : (10 : Nat) ^ 7 = 10000000 := by norm_num
  have e6 : (10 : Nat) ^ 6 = 1000000 := by norm_num
  have hu20 : (intChars user_id).length ≤ 20 :=
    intChars_length_le_nonneg user_id 20 hu (by omega) (by norm_num)
  have hf5 : ((f.map jsonEscapeChar).flatten).length ≤ 5 := by
    rcases hf with rfl | rfl | rfl | rfl <;> decide
  refine ⟨?_, ?_, ?_⟩
  · intro b hb cd hcd
    have hone : (intChars (1 : Int)).length ≤ 7 := by decide
    simp only [build_filter_row, CATEGORY_BUTTONS, List.map_cons, List.map_nil,
      List.mem_cons, List.not_mem_nil, or_false] at hb
    rcases hb with rfl | rfl | rfl | rfl
    · obtain rfl := Option.some.inj hcd
      refine json_dumps_wellSized _ rfl ?_
      show utf8Len (dumps [("a", JVal.s "filter".data), ("f", JVal.s "novel".data),
        ("p", JVal.n 1), ("u", JVal.n user_id)]) ≤ 64
      exact dumps_min4_le _ _ _ _ (by decide) (by decide) hone hu20
    · obtain rfl := Option.some.inj hcd
      refine json_dumps_wellSized _ rfl ?_
      show utf8Len (dumps [("a", JVal.s "filter".data), ("f", JVal.s "audio".data),
        ("p", JVal.n 1), ("u", JVal.n user_id)]) ≤ 64
      exact dumps_min4_le _ _ _ _ (by decide) (by decide) hone hu20
    · obtain rfl := Option.some.inj hcd
      refine json_dumps_wellSized _ rfl ?_
      show utf8Len (dumps [("a", JVal.s "filter".data), ("f", JVal.s "comic".data),
        ("p", JVal.n 1), ("u", JVal.n user_id)]) ≤ 64
      exact dumps_min4_le _ _ _ _ (by decide) (by decide) hone hu20
    · obtain rfl := Option.some.inj hcd
      refine json_dumps_wellSized _ rfl ?_
      show utf8Len (dumps [("a", JVal.s "filter".data), ("f", JVal.s "all".data),
        ("p", JVal.n 1), ("u", JVal.n user_id)]) ≤ 64
      exact dumps_min4_le _ _ _ _ (by decide) (by decide) hone hu20
  · intro b hb cd hcd
    simp only [build_pagination_row, List.mem_cons, List.not_mem_nil, or_false] at hb
    rcases hb with rfl | rfl
    · by_cases hpg : page > 1
      · rw [if_pos hpg] at hcd
        obtain rfl := Option.some.inj hcd
        refine json_dumps_wellSized _ rfl ?_
        show utf8Len (dumps [("a", JVal.s "page".data), ("f", JVal.s f),
          ("p", JVal.n (page - 1)), ("u", JVal.n user_id)]) ≤ 64
        refine dumps_min4_le _ _ _ _ (by decide) hf5 ?_ hu20
        exact intChars_length_le_nonneg _ 7 (by omega) (by omega) (by norm_num)
      · rw [if_neg hpg] at hcd
        obtain rfl := Option.some.inj hcd
        rw [json_dumps_small _ (by decide)]
        exact ⟨by decide, _, rfl⟩
    · by_cases hpn : page < total_pages
      · rw [if_pos hpn] at hcd
        obtain rfl := Option.some.inj hcd
        refine json_dumps_wellSized _ rfl ?_
        show utf8Len (dumps [("a", JVal.s "page".data), ("f", JVal.s f),
          ("p", JVal.n (page + 1)), ("u", JVal.n user_id)]) ≤ 64
        refine dumps_min4_le _ _ _ _ (by decide) hf5 ?_ hu20
        exact intChars_length_le_nonneg _ 7 (by omega) (by omega) (by norm_num)
      · rw [if_neg hpn] at hcd
        obtain rfl := Option.some.inj hcd
        rw [json_dumps_small _ (by decide)]
        exact ⟨by decide, _, rfl⟩
  · intro b hb cd hcd
    simp only [build_comic_nav_keyboard, List.append_assoc, List.mem_append,
      List.mem_cons, List.not_mem_nil, or_false] at hb
    rcases hb with hb | hb | hb
    · by_cases hpg : page > 1
      · rw [if_pos hpg] at hb
        simp only [List.mem_singleton] at hb
        subst hb
        obtain rfl := Option.some.inj hcd
        have hbound := dumps_cn3_le rid (page - 1) hrid_len hrid
          (intChars_length_le_nonneg _ 6 (by omega) (by omega) (by norm_num))
        rw [json_dumps_small _ hbound]
        exact ⟨hbound, _, rfl⟩
      · rw [if_neg hpg] at hb
        cases hb
    · subst hb
      obtain rfl := Option.some.inj hcd
      rw [json_dumps_small _ (by decide)]
      exact ⟨by decide, _, rfl⟩
    · by_cases hpn : page < total_pages
      · rw [if_pos hpn] at hb
        simp only [List.mem_singleton] at hb
        subst hb
        obtain rfl := Option.some.inj hcd
        have hbound := dumps_cn3_le rid (page + 1) hrid_len hrid
          (intChars_length_le_nonneg _ 6 (by omega) (by omega) (by norm_num))
        rw [json_dumps_small _ hbound]
        exact ⟨hbound, _, rfl⟩
      · rw [if_neg hpn] at hb
        cases hb

end Keyboards

namespace Keyboards

open Py

/-- Witness for C1 at a concrete input: a mixed ASCII/multi-byte keyword, a real
UUID-shaped resource id, page 2 of 3, and a 9-digit user id. -/
theorem C1_keyboard_callback_size_witness :
    (∀ b ∈ build_filter_row "all".data "漫画abc测试".data 2 123456789,
      ∀ cd, b.callback_data = some cd → wellSized cd) ∧
    (∀ b ∈ build_pagination_row "漫画abc测试".data "novel".data 2 3 123456789,
      ∀ cd, b.callback_data = some cd → wellSized cd) ∧
    (∀ b ∈ build_comic_nav_keyboard "123e4567-e89b-12d3-a456-426614174000".data 2 3,
      ∀ cd, b.callback_data = some cd → wellSized cd) :=
  C1_keyboard_callback_size "漫画abc测试".data "all".data "novel".data
    "123e4567-e89b-12d3-a456-426614174000".data 2 3 123456789
    (Or.inl rfl) (by norm_num) (by norm_num) (by norm_num) (by norm_num) (by norm_num)
    (by decide) (by decide)

end Keyboards

/-! ## Resource repository and search service
(`src/repositories.py`, `src/services/search_service.py`)

The database is modelled as the list of `Resource` rows; SQL `ILIKE '%kw%'` is a
case-insensitive substring match, `ORDER BY is_vip DESC, created_at DESC` is a
stable sort, and `LIMIT`/`OFFSET` are `take`/`drop` after sorting. -/

namespace Repo

open Py

/-- A row of the `resources` table (`db.Resource`). -/
structure Resource where
  id : Str
  title : Str
  type : Str
  jump_url : Option Str
  cover_file_id : Option Str
  preview_message_id : Option Int
  preview_url : Option Str
  is_vip : Bool
  created_at : Int
deriving DecidableEq

/-- Python whitespace test for `str.strip` (ASCII whitespace suffices here). -/
def isSpaceCh (c : Char) : Bool :=
  c == ' ' || c == '\t' || c == '\n' || c == '\r' || c.toNat == 11 || c.toNat == 12

/-- Python `s.strip()`. -/
def pyStrip (s : Str) : Str :=
  ((s.dropWhile isSpaceCh).reverse.dropWhile isSpaceCh).reverse

/-- Python truthiness test `keyword and keyword.strip()`. -/
def keywordActive (kw : Str) : Bool := !kw.isEmpty && !(pyStrip kw).isEmpty

/-- Whether `needle` occurs at the head of `hay`. -/
def leadsWith : Str → Str → Bool
  | _, [] => true
  | [], _ :: _ => false
  | h :: hs, n :: ns => h == n && leadsWith hs ns

/-- Whether `needle` occurs somewhere inside `hay`. -/
def containsSub : Str → Str → Bool
  | [], needle => needle.isEmpty
  | h :: t, needle => leadsWith (h :: t) needle || containsSub t needle

/-- SQL `title ILIKE '%needle%'`: case-insensitive substring. -/
def ilikeSub (hay needle : Str) : Bool :=
  containsSub (hay.map Char.toLower) (needle.map Char.toLower)

/-- The keyword filter shared verbatim by `ResourceRepository.search` and
`ResourceRepository.count_by_type`: no filtering when the keyword is blank. -/
def keywordFiltered (db : List Resource) (keyword : Str) : List Resource :=
  if keywordActive keyword then
    db.filter (fun r => ilikeSub r.title (pyStrip keyword))
  else db

/-- `ORDER BY is_vip DESC, created_at DESC` (with stable tie-breaking). -/
def searchLe (a b : Resource) : Prop :=
  (a.is_vip ∧ ¬b.is_vip) ∨ (a.is_vip = b.is_vip ∧ b.created_at ≤ a.created_at)

instance : DecidableRel searchLe := fun a b => by
  unfold searchLe
  infer_instance

/-- `ResourceRepository.search`. -/
def search (db : List Resource) (keyword : Str) (resource_type : Option Str)
    (limit offset : Nat) : List Resource :=
  let q1 := keywordFiltered db keyword
  let q2 :=
    match resource_type with
    | none => q1
    | some t => if t ≠ [] ∧ t ≠ "all".data then q1.filter (fun r => r.type == t) else q1
  ((q2.insertionSort searchLe).drop offset).take limit

/-- The per-type groups of `ResourceRepository.count_by_type`
(`GROUP BY type` with `COUNT`). -/
def typeGroups (db : List Resource) (keyword : Str) : List (Str × Nat) :=
  ((keywordFiltered db keyword).map (·.type)).dedup.map
    (fun t => (t, ((keywordFiltered db keyword).filter (fun r => r.type == t)).length))

/-- Python dict assignment `d[k] = v` (overwrite in place, else append). -/
def dictInsert (d : List (Str × Nat)) (k : Str) (v : Nat) : List (Str × Nat) :=
  if d.any (fun e => e.1 == k) then d.map (fun e => if e.1 == k then (e.1, v) else e)
  else d ++ [(k, v)]

/-- Python `d.get(k)` / `d[k]`. -/
def dlookup (d : List (Str × Nat)) (k : Str) : Option Nat :=
  (d.find? (fun e => e.1 == k)).map (·.2)

/-- Python `d.get(k, default)`. -/
def dlookupD (d : List (Str × Nat)) (k : Str) (dv : Nat) : Nat := (dlookup d k).getD dv

/-- `ResourceRepository.count_by_type`: the grouped counts plus
`result["all"] = sum(result.values())`. -/
def count_by_type (db : List Resource) (keyword : Str) : List (Str × Nat) :=
  dictInsert (typeGroups db keyword) "all".data ((typeGroups db keyword).map (·.2)).sum

/-- `renderers.ResourceView`. -/
structure ResourceView where
  id : Str
  title : Str
  type : Str
  is_vip : Bool
  jump_url : Option Str
  preview_msg_id : Option Int
  preview_url : Option Str
deriving DecidableEq

/-- `search_service.SearchResult`. -/
structure SearchResult where
  counts : List (Str × Nat)
  rows : List ResourceView
  total_pages : Nat
deriving DecidableEq

/-- A `SearchService.run` invocation together with the `limit`/`offset` it passed
to the repository (the observable repository call of the claim). -/
structure SearchRun where
  result : SearchResult
  limit : Nat
  offset : Nat
deriving DecidableEq

/-- `SearchService.run`: clamp the page from below to 1, compute
`offset = (page - 1) * page_size`, query the page of rows and the counts, and
derive `total_pages = max(ceil(total_rows / page_size), 1)` for the effective
category. -/
def SearchService_run (db : List Resource) (page_size : Nat) (keyword : Str)
    (category : Str) (page : Int) : SearchRun :=
  let page1 := max page 1
  let limit := page_size
  let offset : Nat := ((page1 - 1) * (limit : Int)).toNat
  let rows := search db keyword (some category) limit offset
  let counts := count_by_type db keyword
  let key :=
    if category = "novel".data ∨ category = "audio".data ∨ category = "comic".data
    then category else "all".data
  let total_rows := dlookupD counts key 0
  let total_pages := max ((total_rows + limit - 1) / limit) 1
  { result :=
      { counts := counts
        rows := rows.map (fun r =>
          { id := r.id, title := r.title, type := r.type, is_vip := r.is_vip,
            jump_url := r.jump_url, preview_msg_id := r.preview_message_id,
            preview_url := r.preview_url })
        total_pages := total_pages }
    limit := limit
    offset := offset }

end Repo

namespace Repo

open Py

theorem dlookup_overwrite (d : List (Str × Nat)) (k : Str) (v : Nat)
    (h : d.any (fun e => e.1 == k) = true) :
    dlookup (d.map (fun e => if e.1 == k then (e.1, v) else e)) k = some v := by
  induction d with
  | nil => simp at h
  | cons e t ih =>
    simp only [List.map_cons, dlookup, List.find?]
    by_cases he : e.1 == k
    · simp only [he, if_true]
      have hk : e.1 = k := by simpa using he
      simp [hk]
    · simp only [he, Bool.false_eq_true, if_false]
      simp only [List.any_cons, he, Bool.false_or] at h
      have := ih h
      simpa [dlookup] using this

theorem dlookup_dictInsert (d : List (Str × Nat)) (k : Str) (v : Nat) :
    dlookup (dictInsert d k v) k = some v := by
  unfold dictInsert
  split_ifs with h
  · exact dlookup_overwrite d k v h
  · have hnone : d.find? (fun e => e.1 == k) = none := by
      rw [List.find?_eq_none]
      intro e he
      by_contra hc
      exact h (List.any_eq_true.mpr ⟨e, he, by simpa using hc⟩)
    simp [dlookup, List.find?_append, hnone]

/-- Summation distributes over pointwise addition of mapped functions. -/
theorem sum_map_add {beta : Type} (D : List beta) (g h : beta → Nat) :
    (D.map (fun x => g x + h x)).sum = (D.map g).sum + (D.map h).sum := by
  induction D with
  | nil => simp
  | cons d t ih =>
    simp only [List.map_cons, List.sum_cons, ih]
    omega

theorem sum_map_zero_of_not_mem {beta : Type} [DecidableEq beta] (D : List beta) (b : beta)
    (h : b ∉ D) : (D.map (fun x => if b = x then 1 else 0)).sum = 0 := by
  induction D with
  | nil => simp
  | cons d t ih =>
    simp only [List.map_cons, List.sum_cons]
    rw [if_neg (by rintro rfl; exact h (by simp)), ih (fun hm => h (by simp [hm]))]

theorem sum_map_ite_single {beta : Type} [DecidableEq beta] (D : List beta) (b : beta)
    (hnd : D.Nodup) (hb : b ∈ D) :
    (D.map (fun x => if b = x then 1 else 0)).sum = 1 := by
  induction D with
  | nil => cases hb
  | cons d t ih =>
    simp only [List.map_cons, List.sum_cons]
    rcases List.mem_cons.mp hb with rfl | hbt
    · rw [if_pos rfl, sum_map_zero_of_not_mem t b (by
        have := hnd
        simp only [List.nodup_cons] at this
        exact this.1)]
    · have hne : b ≠ d := by
        rintro rfl
        simp only [List.nodup_cons] at hnd
        exact hnd.1 hbt
      rw [if_neg hne, ih (by simp only [List.nodup_cons] at hnd; exact hnd.2) hbt]

/-- Each row is counted in exactly one group of a nodup covering group list. -/
theorem sum_filter_lengths {alpha beta : Type} [DecidableEq beta] (f : alpha → beta) :
    ∀ (D : List beta) (l : List alpha), (∀ x ∈ l, f x ∈ D) → D.Nodup →
      (D.map (fun t => (l.filter (fun r => decide (f r = t))).length)).sum = l.length := by
  intro D l
  induction l with
  | nil =>
    intro _ _
    simp
  | cons a t ih =>
    intro hcov hnd
    have hmem : f a ∈ D := hcov a (by simp)
    have hsplit : ∀ t', ((a :: t).filter (fun r => decide (f r = t'))).length
        = (t.filter (fun r => decide (f r = t'))).length + (if f a = t' then 1 else 0) := by
      intro t'
      rw [List.filter_cons]
      by_cases he : f a = t'
      · rw [if_pos (by simpa using he), if_pos he]
        simp
      · rw [if_neg (by simpa using he), if_neg he]
        omega
    have hrw : D.map (fun t' => ((a :: t).filter (fun r => decide (f r = t'))).length)
        = D.map (fun t' => (t.filter (fun r => decide (f r = t'))).length
            + (if f a = t' then 1 else 0)) :=
      List.map_congr_left (fun t' _ => hsplit t')
    rw [hrw, sum_map_add, ih (fun x hx => hcov x (by simp [hx])) hnd,
      sum_map_ite_single D (f a) hnd hmem, List.length_cons]

/-- The group counts sum to the filtered row count (each row is counted in
exactly one type group). -/
theorem sum_typeGroups (db : List Resource) (keyword : Str) :
    ((typeGroups db keyword).map (·.2)).sum = (keywordFiltered db keyword).length := by
  unfold typeGroups
  rw [List.map_map]
  have hpred : ∀ t : Str,
      (fun r : Resource => r.type == t) = (fun r : Resource => decide (r.type = t)) := by
    intro t
    funext r
    by_cases h : r.type = t
    · simp [h]
    · simp [h]
  have hcongr :
      (((keywordFiltered db keyword).map (·.type)).dedup.map
        ((fun e : Str × Nat => e.2) ∘
          (fun t => (t, ((keywordFiltered db keyword).filter (fun r => r.type == t)).length))))
      = (((keywordFiltered db keyword).map (·.type)).dedup.map
          (fun t => ((keywordFiltered db keyword).filter
            (fun r => decide (r.type = t))).length)) := by
    apply List.map_congr_left
    intro t _
    show (List.filter (fun r => r.type == t) (keywordFiltered db keyword)).length
      = (List.filter (fun r => decide (r.type = t)) (keywordFiltered db keyword)).length
    rw [hpred t]
  rw [hcongr]
  exact sum_filter_lengths (fun r : Resource => r.type)
    (((keywordFiltered db keyword).map (·.type)).dedup) (keywordFiltered db keyword)
    (fun x hx => by
      rw [List.mem_dedup]
      exact List.mem_map.mpr ⟨x, hx, rfl⟩)
    (List.nodup_dedup _)

end Repo

namespace Repo

open Py

theorem countAll_eq (db : List Resource) (kw : Str) :
    dlookupD (count_by_type db kw) "all".data 0 = (keywordFiltered db kw).length := by
  unfold count_by_type dlookupD
  rw [dlookup_dictInsert]
  simp only [Option.getD_some]
  exact sum_typeGroups db kw

theorem run_offset (db : List Resource) (psize : Nat) (kw cat : Str) (page : Int) :
    (SearchService_run db psize kw cat page).offset = ((max page 1 - 1) * (psize : Int)).toNat :=
  rfl

theorem run_total_pages_all (db : List Resource) (psize : Nat) (kw : Str) (page : Int) :
    (SearchService_run db psize kw "all".data page).result.total_pages
      = max (((dlookupD (count_by_type db kw) "all".data 0) + psize - 1) / psize) 1 := rfl

/-- C2 (amended): with page size 5 and a keyword matching 23 resources,
`SearchService.run` yields `total_pages = 5`; a requested page of 0 or any
negative number is clamped to page 1 (repository offset 0); but a requested
page is clamped only from below, never down to the last page, so requesting
page 9 calls the repository with offset `(9-1)*5 = 40` (not 20). -/
theorem C2_search_service_pagination (db : List Resource) (kw : Str) (page : Int)
    (h23 : (keywordFiltered db kw).length = 23) :
    (SearchService_run db 5 kw "all".data page).result.total_pages = 5
    ∧ (page ≤ 0 → (SearchService_run db 5 kw "all".data page).offset = 0)
    ∧ (SearchService_run db 5 kw "all".data 9).offset = 40 := by
  refine ⟨?_, ?_, ?_⟩
  · rw [run_total_pages_all, countAll_eq, h23]
    decide
  · intro hle
    rw [run_offset]
    have hmax : max page 1 = 1 := by omega
    rw [hmax]
    decide
  · rw [run_offset]
    decide

/-- One synthetic `novel` resource row. -/
def mkRes (i : Nat) : Resource :=
  { id := natChars i, title := "x".data, type := "novel".data, jump_url := none,
    cover_file_id := none, preview_message_id := none, preview_url := none,
    is_vip := false, created_at := (i : Int) }

/-- A database of 23 resources all matching the keyword `"x"`. -/
def db23 : List Resource := (List.range 23).map mkRes

/-- C2 counterexample: with 23 matching resources and page size 5 (total_pages = 5),
requesting page 9 calls the repository with offset 40, not 20 as claimed — the
service never clamps the page down to the last page. -/
theorem C2_search_service_offset_counterexample :
    (SearchService_run db23 5 "x".data "all".data 9).offset ≠ 20
    ∧ (SearchService_run db23 5 "x".data "all".data 9).offset = 40
    ∧ (SearchService_run db23 5 "x".data "all".data 9).result.total_pages = 5 := by
  refine ⟨?_, rfl, ?_⟩
  · decide
  · decide

/-- Witness for C2 at the concrete 23-row database. -/
theorem C2_search_service_pagination_witness :
    (SearchService_run db23 5 "x".data "all".data 0).result.total_pages = 5
    ∧ ((0 : Int) ≤ 0 → (SearchService_run db23 5 "x".data "all".data 0).offset = 0)
    ∧ (SearchService_run db23 5 "x".data "all".data 9).offset = 40 :=
  C2_search_service_pagination db23 "x".data 0 (by decide)

/-- Modelled from the spec: the "unconstrained query" of the blank-keyword claim —
the same repository query with no keyword constraint applied (type filter,
ordering, limit and offset only). -/
def search_unconstrained_spec (db : List Resource) (resource_type : Option Str)
    (limit offset : Nat) : List Resource :=
  let q2 :=
    match resource_type with
    | none => db
    | some t => if t ≠ [] ∧ t ≠ "all".data then db.filter (fun r => r.type == t) else db
  ((q2.insertionSort searchLe).drop offset).take limit

/-- C8: a blank (empty or whitespace-only) keyword applies no title filter —
`search` returns exactly the unconstrained row set (same type filter, ordering,
limit, offset); `count_by_type` always carries an `"all"` entry equal to the sum
of the per-type counts, which equals the filtered row count, so with a blank
keyword `count_by_type(kw)["all"]` is the total resource count. -/
theorem C8_blank_keyword_and_counts (db : List Resource) (kw : Str) :
    (keywordActive kw = false →
      ∀ t limit offset, search db kw t limit offset = search_unconstrained_spec db t limit offset)
    ∧ dlookup (count_by_type db kw) "all".data = some (((typeGroups db kw).map (·.2)).sum)
    ∧ ((typeGroups db kw).map (·.2)).sum = (keywordFiltered db kw).length
    ∧ (keywordActive kw = false →
        dlookupD (count_by_type db kw) "all".data 0 = db.length) := by
  refine ⟨?_, ?_, ?_, ?_⟩
  · intro hb t limit offset
    unfold search search_unconstrained_spec keywordFiltered
    rw [hb]
    simp
  · unfold count_by_type
    exact dlookup_dictInsert _ _ _
  · exact sum_typeGroups db kw
  · intro hb
    rw [countAll_eq]
    unfold keywordFiltered
    rw [hb]
    simp

/-- Witness for C8 on the concrete database with a whitespace-only keyword. -/
theorem C8_blank_keyword_and_counts_witness :
    search db23 "  ".data (some "novel".data) 5 0
      = search_unconstrained_spec db23 (some "novel".data) 5 0
    ∧ dlookupD (count_by_type db23 "  ".data) "all".data 0 = 23 := by
  have h := C8_blank_keyword_and_counts db23 "  ".data
  refine ⟨h.1 (by decide) _ _ _, ?_⟩
  rw [h.2.2.2 (by decide)]
  decide

end Repo

/-! ## Bot application (`src/bot.py`)

`ensure_user_record`, the callback-query dispatcher, and the comic delivery
flow `send_comic_page` are embedded as pure functions over an explicit world
state; outbound platform calls are recorded in the outcome value. -/

namespace Bot

open Py Repo Keyboards

/-- An incoming platform user (aiogram `types.User`). -/
structure TgUser where
  id : Int
  first_name : Option Str
  username : Option Str
deriving DecidableEq

/-- A stored timestamp: MySQL may return it timezone-naive; an aware value
carries a UTC instant, a naive value only a wall-clock reading. -/
inductive TzTime where
  | naive (wall : Int)
  | aware (instant : Int)
deriving DecidableEq

/-- A row of the `users` table (`db.User`). -/
structure User where
  user_id : Int
  first_name : Option Str
  username : Option Str
  vip_expiry : Option TzTime
  is_blocked : Bool
  usage_quota : Int
deriving DecidableEq

/-- Python truthiness of an optional string. -/
def truthyStr : Option Str → Bool
  | none => false
  | some s => !s.isEmpty

/-- `bot.ensure_user_record`: create the row on first observation, otherwise
refresh `first_name`/`username` only when the incoming value is truthy and
differs from the stored one. -/
def ensure_user_record (existing : Option User) (tu : TgUser) : User :=
  match existing with
  | none =>
    { user_id := tu.id, first_name := tu.first_name, username := tu.username,
      vip_expiry := none, is_blocked := false, usage_quota := 0 }
  | some db_user =>
    let newFirst :=
      if truthyStr tu.first_name ∧ db_user.first_name ≠ tu.first_name
      then tu.first_name else db_user.first_name
    let newUsername :=
      if truthyStr tu.username ∧ db_user.username ≠ tu.username
      then tu.username else db_user.username
    { db_user with first_name := newFirst, username := newUsername }

/-- A row of the `comic_files` table (`db.ComicFile`). -/
structure ComicFileRow where
  id : Int
  resource_id : Str
  file_id : Str
  order : Int
  storage_message_id : Option Int
deriving DecidableEq

/-- A row of the `vip_plans` table (`db.VipPlan`; the fields the bot reads). -/
structure VipPlan where
  id : Int
  name : Str
  duration_days : Int
  price : Str
  is_active : Bool
  sort_order : Int
deriving DecidableEq

/-- Modelled from the spec: the `SharkPaymentConfig` gateway-configuration entity
the bot imports from `db` is absent from the shown persistence schema; §3 of the
spec prescribes `merchant_id`, `sign_key`, `api_base_url`, `channel_type`,
`notify_url`, `return_url` and an `is_active` flag. -/
structure SharkPaymentConfig where
  id : Int
  merchant_id : Str
  sign_key : Str
  api_base_url : Str
  channel_type : Str
  notify_url : Str
  return_url : Str
  is_active : Bool
deriving DecidableEq

/-- The database and environment visible to `send_comic_page`. -/
structure BotWorld where
  resources : List Repo.Resource
  comic_files : List ComicFileRow
  users : List User
  vip_plans : List VipPlan
  payment_configs : List SharkPaymentConfig
  now : Int
  page_size : Nat
deriving DecidableEq

/-- `ResourceRepository.count_comic_files`. -/
def count_comic_files (w : BotWorld) (resource_id : Str) : Nat :=
  (w.comic_files.filter (fun f => f.resource_id == resource_id)).length

/-- `ORDER BY comic_files.order ASC` (stable). -/
def fileLe (a b : ComicFileRow) : Prop := a.order ≤ b.order

instance : DecidableRel fileLe := fun a b => by
  unfold fileLe
  infer_instance

/-- `ResourceRepository.list_comic_files`. -/
def list_comic_files (w : BotWorld) (resource_id : Str) (limit offset : Nat) :
    List ComicFileRow :=
  ((((w.comic_files.filter (fun f => f.resource_id == resource_id)).insertionSort
    fileLe).drop offset).take limit)

/-- `VipPlan` ordering `sort_order ASC, id ASC` (stable). -/
def planLe (a b : VipPlan) : Prop :=
  a.sort_order < b.sort_order ∨ (a.sort_order = b.sort_order ∧ a.id ≤ b.id)

instance : DecidableRel planLe := fun a b => by
  unfold planLe
  infer_instance

/-- Interpret a stored expiry as a UTC instant: a timezone-naive value has
`tzinfo=timezone.utc` attached, i.e. its wall-clock reading is read as UTC. -/
def tzToUtcInstant : TzTime → Int
  | .naive w => w
  | .aware i => i

/-- The VIP test of `send_comic_page` (source lines 431–442): VIP iff an expiry
is stored and lies strictly after the current instant. -/
def vipActive (vip_expiry : Option TzTime) (now : Int) : Bool :=
  match vip_expiry with
  | none => false
  | some e => now < tzToUtcInstant e

/-- The observable outcome of `send_comic_page`. -/
inductive ComicOutcome where
  | notFound
  | noFiles
  | vipRequired (plans : List VipPlan) (hasPaymentConfig : Bool)
  | emptyPage
  | delivered (files : List ComicFileRow) (page : Int) (total_pages : Nat) (withNav : Bool)
deriving DecidableEq

/-- `bot.send_comic_page`: resolve the resource, require type `comic`, require at
least one stored file, upsert the user, gate on VIP, then serve either the single
full page (≤ 10 images) or the clamped page slice (> 10 images); `delivered`
carries the images sent and whether a pagination keyboard accompanies them. -/
def send_comic_page (w : BotWorld) (tu : TgUser) (resource_id : Str) (page : Int) :
    ComicOutcome :=
  match w.resources.find? (fun r => r.id == resource_id) with
  | none => .notFound
  | some resource =>
    if resource.type ≠ "comic".data then .notFound
    else
      let total_images := count_comic_files w resource_id
      if total_images = 0 then .noFiles
      else
        let db_user := ensure_user_record (w.users.find? (fun u => u.user_id == tu.id)) tu
        if resource.is_vip ∧ vipActive db_user.vip_expiry w.now = false then
          .vipRequired ((w.vip_plans.filter (·.is_active)).insertionSort planLe)
            (w.payment_configs.find? (·.is_active)).isSome
        else
          if total_images ≤ 10 then
            let page_files := list_comic_files w resource_id total_images 0
            if page_files.isEmpty then .emptyPage
            else .delivered page_files 1 1 false
          else
            let total_pages := (total_images + w.page_size - 1) / w.page_size
            let page2 : Int := max 1 (min page (total_pages : Int))
            let offset : Nat := ((page2 - 1) * (w.page_size : Int)).toNat
            let page_files := list_comic_files w resource_id w.page_size offset
            if page_files.isEmpty then .emptyPage
            else .delivered page_files page2 total_pages (decide (1 < total_pages))

end Bot

namespace Bot

open Py Repo Keyboards

/-- C10: the user-upsert invariants — the row is created on first observation;
the `user_id` of an existing row is never changed; a stored `first_name` or
`username` is never overwritten when the incoming value is empty or missing; an
existing field changes only when the incoming value is truthy and differs, and
then it becomes the incoming value; identical observations leave the row
unchanged. -/
theorem C10_ensure_user_record_invariants (tu : TgUser) (u : User) :
    (ensure_user_record none tu
      = { user_id := tu.id, first_name := tu.first_name, username := tu.username,
          vip_expiry := none, is_blocked := false, usage_quota := 0 })
    ∧ (ensure_user_record (some u) tu).user_id = u.user_id
    ∧ (truthyStr tu.first_name = false →
        (ensure_user_record (some u) tu).first_name = u.first_name)
    ∧ (truthyStr tu.username = false →
        (ensure_user_record (some u) tu).username = u.username)
    ∧ ((ensure_user_record (some u) tu).first_name ≠ u.first_name →
        truthyStr tu.first_name = true ∧ tu.first_name ≠ u.first_name
          ∧ (ensure_user_record (some u) tu).first_name = tu.first_name)
    ∧ ((ensure_user_record (some u) tu).username ≠ u.username →
        truthyStr tu.username = true ∧ tu.username ≠ u.username
          ∧ (ensure_user_record (some u) tu).username = tu.username)
    ∧ (tu.first_name = u.first_name → tu.username = u.username →
        ensure_user_record (some u) tu = u) := by
  refine ⟨rfl, ?_, ?_, ?_, ?_, ?_, ?_⟩
  · simp [ensure_user_record]
  · intro h
    simp [ensure_user_record, h]
  · intro h
    simp [ensure_user_record, h]
  · intro hne
    by_cases hc : truthyStr tu.first_name ∧ u.first_name ≠ tu.first_name
    · refine ⟨hc.1, fun he => hc.2 he.symm, ?_⟩
      simp [ensure_user_record, if_pos hc]
    · exfalso
      apply hne
      simp [ensure_user_record, if_neg hc]
  · intro hne
    by_cases hc : truthyStr tu.username ∧ u.username ≠ tu.username
    · refine ⟨hc.1, fun he => hc.2 he.symm, ?_⟩
      simp [ensure_user_record, if_pos hc]
    · exfalso
      apply hne
      simp [ensure_user_record, if_neg hc]
  · intro h1 h2
    rcases u with ⟨uid, ufn, uun, uve, uib, uuq⟩
    simp only at h1 h2
    simp [ensure_user_record, h1, h2]

/-- A concrete stored user row for the C10 witness. -/
def storedAlice : User :=
  { user_id := 7, first_name := some "Old".data, username := some "alice".data,
    vip_expiry := none, is_blocked := false, usage_quota := 0 }

/-- The concrete incoming observation for the C10 witness. -/
def seenAlice : TgUser :=
  { id := 7, first_name := some "New".data, username := some "alice".data }

/-- Witness for C10: a concrete returning user whose observation differs in the
first name only — the name is refreshed and the primary key kept. -/
theorem C10_ensure_user_record_invariants_witness :
    (ensure_user_record (some storedAlice) seenAlice).first_name = some "New".data
    ∧ (ensure_user_record (some storedAlice) seenAlice).user_id = 7 := by
  have h := C10_ensure_user_record_invariants seenAlice storedAlice
  exact ⟨(h.2.2.2.2.1 (by decide)).2.2, h.2.1⟩

end Bot

namespace Bot

open Py Repo Keyboards

/-- C3: the VIP gate of the comic delivery flow — a stored expiry strictly after
the current instant means VIP, at or before it (or no stored expiry) means
not-VIP; a timezone-naive stored expiry is read as UTC (same decision as an
aware expiry at the same instant); and whenever the effective user record is
not-VIP for a VIP-gated comic, the flow sends the gating message and stops with
no comic images delivered. -/
theorem C3_vip_gating (w : BotWorld) (tu : TgUser) (rid : Str) (page : Int)
    (r : Repo.Resource) (e : TzTime) (t now : Int) :
    (vipActive (some (.naive t)) now = vipActive (some (.aware t)) now)
    ∧ (vipActive (some e) now = true ↔ now < tzToUtcInstant e)
    ∧ (vipActive none now = false)
    ∧ (w.resources.find? (fun x => x.id == rid) = some r →
       r.type = "comic".data →
       r.is_vip = true →
       count_comic_files w rid ≠ 0 →
       vipActive (ensure_user_record (w.users.find? (fun u => u.user_id == tu.id))
         tu).vip_expiry w.now = false →
       send_comic_page w tu rid page
         = .vipRequired ((w.vip_plans.filter (·.is_active)).insertionSort planLe)
             (w.payment_configs.find? (·.is_active)).isSome
       ∧ ∀ fs p tp nav, send_comic_page w tu rid page ≠ .delivered fs p tp nav) := by
  refine ⟨rfl, ?_, rfl, ?_⟩
  · simp [vipActive, tzToUtcInstant]
  · intro hfind htype hvip hcount hnotvip
    have hres : send_comic_page w tu rid page
        = .vipRequired ((w.vip_plans.filter (·.is_active)).insertionSort planLe)
            (w.payment_configs.find? (·.is_active)).isSome := by
      unfold send_comic_page
      rw [hfind]
      dsimp only
      rw [if_neg (by simp [htype])]
      rw [if_neg hcount]
      rw [if_pos ⟨by simp [hvip], hnotvip⟩]
    exact ⟨hres, fun fs p tp nav => by rw [hres]; simp⟩

end Bot

namespace Bot

open Py Repo Keyboards

/-- A concrete VIP-gated comic resource for the C3 witness. -/
def vipComicRes : Repo.Resource :=
  { id := "r1".data, title := "t".data, type := "comic".data, jump_url := none,
    cover_file_id := none, preview_message_id := none, preview_url := none,
    is_vip := true, created_at := 0 }

/-- A user whose VIP expired one second ago (stored timezone-naive). -/
def expiredUser : User :=
  { user_id := 9, first_name := some "u".data, username := none,
    vip_expiry := some (.naive 999), is_blocked := false, usage_quota := 0 }

/-- A world holding the gated comic, one stored page and the expired user at
instant 1000. -/
def wGate : BotWorld :=
  { resources := [vipComicRes],
    comic_files := [{ id := 1, resource_id := "r1".data, file_id := "f1".data,
                      order := 1, storage_message_id := none }],
    users := [expiredUser], vip_plans := [], payment_configs := [],
    now := 1000, page_size := 5 }

/-- Witness for C3: the user expired one second before `now` is gated — the flow
stops at the gating message with no images. -/
theorem C3_vip_gating_witness :
    send_comic_page wGate { id := 9, first_name := some "u".data, username := none }
      "r1".data 1
      = .vipRequired [] false
    ∧ ∀ fs p tp nav,
        send_comic_page wGate { id := 9, first_name := some "u".data, username := none }
          "r1".data 1 ≠ .delivered fs p tp nav := by
  have h := (C3_vip_gating wGate
    { id := 9, first_name := some "u".data, username := none } "r1".data 1
    vipComicRes (.naive 999) 0 0).2.2.2
    (by decide) (by decide) (by decide) (by decide) (by decide)
  exact ⟨h.1, h.2⟩

end Bot

namespace Bot

open Py Repo Keyboards

/-- C7: comic delivery pagination — a comic with at most 10 stored images always
yields `total_pages = 1` and serves every stored image (the full sorted file
list) as page 1, regardless of the requested page and without a pagination
keyboard; a comic with 11 images at page size 5 yields `total_pages = 3`, with
the requested page clamped into `[1, 3]` before fetching exactly that page's
slice. -/
theorem C7_comic_page_threshold (w : BotWorld) (tu : TgUser) (rid : Str) (page : Int)
    (r : Repo.Resource)
    (hfind : w.resources.find? (fun x => x.id == rid) = some r)
    (htype : r.type = "comic".data)
    (hnovip : r.is_vip = false) :
    (count_comic_files w rid ≠ 0 → count_comic_files w rid ≤ 10 →
      send_comic_page w tu rid page
        = .delivered ((w.comic_files.filter
            (fun f => f.resource_id == rid)).insertionSort fileLe) 1 1 false)
    ∧ (count_comic_files w rid = 11 → w.page_size = 5 →
      send_comic_page w tu rid page
        = .delivered
            (list_comic_files w rid 5 (((max 1 (min page 3) : Int) - 1) * 5).toNat)
            (max 1 (min page 3)) 3 true) := by
  have hsortlen : ((w.comic_files.filter (fun f => f.resource_id == rid)).insertionSort
      fileLe).length = count_comic_files w rid :=
    (List.perm_insertionSort fileLe _).length_eq
  constructor
  · intro hne hle
    unfold send_comic_page
    rw [hfind]
    dsimp only
    rw [if_neg (by simp [htype])]
    rw [if_neg hne]
    rw [if_neg (by simp [hnovip])]
    rw [if_pos hle]
    have hfull : list_comic_files w rid (count_comic_files w rid) 0
        = (w.comic_files.filter (fun f => f.resource_id == rid)).insertionSort fileLe := by
      unfold list_comic_files
      rw [List.drop_zero, ← hsortlen, List.take_length]
    rw [hfull]
    rw [if_neg (by
      rw [List.isEmpty_iff, ← List.length_eq_zero]
      rw [hsortlen]
      exact hne)]
  · intro h11 h5
    unfold send_comic_page
    rw [hfind]
    dsimp only
    rw [if_neg (by simp [htype])]
    rw [if_neg (by rw [h11]; omega)]
    rw [if_neg (by simp [hnovip])]
    rw [if_neg (by rw [h11]; omega)]
    rw [h11, h5]
    have htp : (11 + 5 - 1) / 5 = 3 := by norm_num
    rw [htp]
    have hp1 : (1 : Int) ≤ max 1 (min page ((3 : Nat) : Int)) := le_max_left _ _
    have hp3 : max 1 (min page ((3 : Nat) : Int)) ≤ 3 := by
      apply max_le
      · norm_num
      · exact le_trans (min_le_right _ _) (by norm_num)
    have hoffle : (((max 1 (min page ((3 : Nat) : Int)) - 1) * ((5 : Nat) : Int))).toNat ≤ 10 := by
      omega
    have hlen : (list_comic_files w rid 5
        (((max 1 (min page ((3 : Nat) : Int)) - 1) * ((5 : Nat) : Int))).toNat).length ≠ 0 := by
      unfold list_comic_files
      rw [List.length_take, List.length_drop, hsortlen, h11]
      omega
    rw [if_neg (by
      rw [List.isEmpty_iff, ← List.length_eq_zero]
      exact hlen)]
    have hcast : ((3 : Nat) : Int) = (3 : Int) := by norm_num
    rw [hcast]
    rfl

end Bot

namespace Bot

open Py Repo Keyboards

/-- A concrete non-VIP comic resource for the C7 witness. -/
def freeComicRes : Repo.Resource :=
  { id := "c1".data, title := "t".data, type := "comic".data, jump_url := none,
    cover_file_id := none, preview_message_id := none, preview_url := none,
    is_vip := false, created_at := 0 }

/-- One stored comic page. -/
def mkFile (i : Nat) : ComicFileRow :=
  { id := (i : Int), resource_id := "c1".data, file_id := natChars i,
    order := (i : Int), storage_message_id := none }

/-- A world with 10 stored pages. -/
def wTen : BotWorld :=
  { resources := [freeComicRes],
    comic_files := (List.range 10).map (fun i => mkFile (i + 1)),
    users := [], vip_plans := [], payment_configs := [], now := 0, page_size := 5 }

/-- A world with 11 stored pages. -/
def wEleven : BotWorld :=
  { resources := [freeComicRes],
    comic_files := (List.range 11).map (fun i => mkFile (i + 1)),
    users := [], vip_plans := [], payment_configs := [], now := 0, page_size := 5 }

/-- Witness for C7: 10 images always make one unpaginated page (even when page 99
is requested); 11 images at page size 5 make 3 pages, with page 9 clamped to 3. -/
theorem C7_comic_page_threshold_witness :
    send_comic_page wTen { id := 9, first_name := none, username := none } "c1".data 99
      = .delivered ((wTen.comic_files.filter
          (fun f => f.resource_id == "c1".data)).insertionSort fileLe) 1 1 false
    ∧ send_comic_page wEleven { id := 9, first_name := none, username := none } "c1".data 9
      = .delivered
          (list_comic_files wEleven "c1".data 5 (((max 1 (min 9 3) : Int) - 1) * 5).toNat)
          (max 1 (min 9 3)) 3 true := by
  constructor
  · exact (C7_comic_page_threshold wTen
      { id := 9, first_name := none, username := none } "c1".data 99 freeComicRes
      (by decide) (by decide) (by decide)).1 (by decide) (by decide)
  · exact (C7_comic_page_threshold wEleven
      { id := 9, first_name := none, username := none } "c1".data 9 freeComicRes
      (by decide) (by decide) (by decide)).2 (by decide) (by decide)

end Bot

namespace Bot

open Py Repo Keyboards

/-- The observable outcome of `bot.handle_callback`. -/
inductive CbOutcome where
  | alertNotOwner
  | toastFirstPage
  | rerun (keyword : Str) (category : Str) (page : Int)
  | comicNav (resource_id : Str) (page : Int)
  | alertMissingResource
  | buyVip (plan_id : Int)
  | alertMissingPlan
  | ack
  | alertUnknown
deriving DecidableEq

/-- Read a string payload value. -/
def jstr : Option JVal → Option Str
  | some (.s s) => some s
  | _ => none

/-- Read a string payload value with a default (non-string values never occur in
this program's payloads). -/
def jstrD (v : Option JVal) (d : Str) : Str := (jstr v).getD d

/-- Read an integer payload value with a default. -/
def jintD (v : Option JVal) (d : Int) : Int :=
  match v with
  | some (.n i) => i
  | _ => d

/-- The shared tail of the `filter`/`page` branch of `bot.handle_callback`:
keyword extraction and recovery, page clamping, the dead first-page guard, and
the search re-run; `recovered` abstracts the keyword-recovery chain of the
`filter` action (regex over the visible message text, then the replied-to
message's text or caption). -/
def handlePage (payload : Payload) (action : Option Str) (recovered : Option Str) :
    CbOutcome :=
  let keyword := pyStrip (jstrD (pget payload "k") [])
  let category := jstrD (pget payload "f") "all".data
  let page := max (jintD (pget payload "p") 1) 1
  let keyword2 :=
    if action = some "filter".data ∧ keyword = [] then (recovered.getD []) else keyword
  if action = some "page".data ∧ jstr (pget payload "dir") = some "prev".data ∧ page < 1
  then .toastFirstPage
  else .rerun keyword2 category page

/-- `payload.get("r") or payload.get("rid")` (Python `or`: an empty string falls
through to the legacy spelling). -/
def ridOf (payload : Payload) : Option Str :=
  if jstr (pget payload "r") = none ∨ jstr (pget payload "r") = some []
  then jstr (pget payload "rid") else jstr (pget payload "r")

/-- `bot.handle_callback` on an already-parsed payload; `fromUser` is the
callback sender's id.  `rerun` stands for re-running the search and editing the
message in place (`respond_with_results`).  For `filter`/`page`, a payload
without a `u` field is allowed (backward compatibility) and a mismatching `u`
is rejected; `buy_vip` requires a matching integer `u`. -/
def handle_callback (payload : Payload) (fromUser : Int) (recovered : Option Str) :
    CbOutcome :=
  if jstr (pget payload "a") = some "filter".data
      ∨ jstr (pget payload "a") = some "page".data then
    if pget payload "u" ≠ none ∧ pget payload "u" ≠ some (.n fromUser) then
      .alertNotOwner
    else handlePage payload (jstr (pget payload "a")) recovered
  else if jstr (pget payload "a") = some "comic_nav".data
      ∨ jstr (pget payload "a") = some "cn".data then
    if ridOf payload = none ∨ ridOf payload = some [] then .alertMissingResource
    else .comicNav ((ridOf payload).getD []) (max (jintD (pget payload "p") 1) 1)
  else if jstr (pget payload "a") = some "buy_vip".data then
    if jintD (pget payload "plan_id") 0 = 0 then .alertMissingPlan
    else if pget payload "u" = some (.n fromUser) then
      .buyVip (jintD (pget payload "plan_id") 0)
    else .alertNotOwner
  else if jstr (pget payload "a") = some "noop".data then .ack
  else .alertUnknown

theorem handlePage_ne_toast (payload : Payload) (action : Option Str)
    (recovered : Option Str) :
    handlePage payload action recovered ≠ CbOutcome.toastFirstPage := by
  simp only [handlePage]
  split_ifs with h h2
  · exfalso
    have hmax := le_max_right (jintD (pget payload "p") 1) 1
    have := h.2.2
    omega
  · simp
  · simp

theorem handle_callback_ne_toast (payload : Payload) (fromUser : Int)
    (recovered : Option Str) :
    handle_callback payload fromUser recovered ≠ CbOutcome.toastFirstPage := by
  unfold handle_callback
  split_ifs <;> first | exact handlePage_ne_toast _ _ _ | simp

/-- C9 (amended): for a `page` callback with direction `prev` whose encoded
target page is 0 or below, the handler clamps the page to `max(p, 1) = 1`
*before* the below-1 check, so the "already on the first page" toast branch is
unreachable: the callback is processed as a normal page action, re-running the
search at page 1 and editing the message; no input ever produces the toast. -/
theorem C9_page_prev_clamped (payload : Payload) (fromUser p : Int)
    (recovered : Option Str)
    (ha : pget payload "a" = some (.s "page".data))
    (hu : pget payload "u" = some (.n fromUser))
    (hdir : pget payload "dir" = some (.s "prev".data))
    (hp : pget payload "p" = some (.n p)) (hple : p ≤ 0) :
    handle_callback payload fromUser recovered
      = .rerun (pyStrip (jstrD (pget payload "k") []))
          (jstrD (pget payload "f") "all".data) 1
    ∧ ∀ q fu rec, handle_callback q fu rec ≠ CbOutcome.toastFirstPage := by
  refine ⟨?_, fun q fu rec => handle_callback_ne_toast q fu rec⟩
  unfold handle_callback
  rw [if_pos (by rw [ha]; exact Or.inr rfl)]
  rw [if_neg (by rw [hu]; simp)]
  unfold handlePage
  rw [ha, hp, hdir]
  dsimp only [jstr, jintD]
  have hmax : max p 1 = 1 := by omega
  rw [hmax]
  rw [if_neg (by
    rintro ⟨-, -, hlt⟩
    omega)]
  rw [if_neg (by
    rintro ⟨hcon, -⟩
    exact absurd hcon (by decide))]

/-- The concrete crafted payload for the C9 counterexample: action `page`,
direction `prev`, target page 0. -/
def prevZeroPayload : Payload :=
  [("a", .s "page".data), ("dir", .s "prev".data), ("k", .s "x".data),
   ("f", .s "all".data), ("p", .n 0), ("u", .n 5)]

/-- C9 counterexample: on a `prev` payload targeting page 0 from the original
requester, the handler does not answer with the first-page toast and stop — it
re-runs the search at page 1 (clamped) and edits the message. -/
theorem C9_page_prev_toast_counterexample :
    handle_callback prevZeroPayload 5 none ≠ CbOutcome.toastFirstPage
    ∧ handle_callback prevZeroPayload 5 none = .rerun "x".data "all".data 1 := by
  exact ⟨by decide, by decide⟩

/-- Witness for C9 at the concrete crafted payload. -/
theorem C9_page_prev_clamped_witness :
    handle_callback prevZeroPayload 5 none
      = .rerun (pyStrip (jstrD (pget prevZeroPayload "k") []))
          (jstrD (pget prevZeroPayload "f") "all".data) 1
    ∧ ∀ q fu rec, handle_callback q fu rec ≠ CbOutcome.toastFirstPage :=
  C9_page_prev_clamped prevZeroPayload 5 0 none (by decide) (by decide) (by decide)
    (by decide) (by decide)

end Bot

namespace Py

/-- Python string `<` (lexicographic over code points). -/
def lexLtB : Str → Str → Bool
  | [], [] => false
  | [], _ :: _ => true
  | _ :: _, [] => false
  | a :: as_, b :: bs =>
    if a.toNat < b.toNat then true
    else if b.toNat < a.toNat then false
    else lexLtB as_ bs

/-- Python string `<=`. -/
def lexLeB (x y : Str) : Bool := !(lexLtB y x)

end Py

/-! ## Admin web API (`src/web.py`): comic upload and resource deletion -/

namespace Web

open Py Repo Bot

/-- A ComicFile row as written by the upload endpoints. -/
structure NewComicFile where
  file_id : Str
  order : Nat
  storage_message_id : Option Int
deriving DecidableEq

/-- The resource link written to `preview_url`. -/
inductive PreviewUrl where
  | channelLink (message_id : Int)
  | deepLink
deriving DecidableEq

/-- The database effect of a comic upload request. -/
structure UploadOutcome where
  cover_file_id : Str
  preview_message_id : Option Int
  preview_message_ids : Option (List Int)
  preview_url : PreviewUrl
  comic_files : List NewComicFile
  pages : Nat
deriving DecidableEq

/-- Sorting of uploads by filename. -/
def fnameLe (a b : Str × Str) : Prop := lexLeB a.1 b.1 = true

instance : DecidableRel fnameLe := fun a b => by
  unfold fnameLe
  infer_instance

/-- `web.upload_comic` (direct image upload), its database effect.  `files` is
the list of (filename, resulting storage `file_id`) for the uploaded images (the
claim concerns successful requests, so every storage upload yields a handle);
`sendResults` gives, for each attempted preview send, the posted message id or
`none` when the send raised (the per-send `try`/`except` swallows the failure).
The source writes the ComicFile rows inside the `else` branch taken only when
*no* preview message was sent (web.py lines 888–904); when preview posting
succeeds, no ComicFile rows are written. -/
def upload_comic (files : List (Str × Str)) (preview_count : Nat)
    (sendResults : List (Option Int)) : Option UploadOutcome :=
  if files = [] then none
  else
    let sorted_files := files.insertionSort fnameLe
    let stored_file_ids := sorted_files.map (·.2)
    let cover := (stored_file_ids.head?).getD []
    let preview_file_ids := stored_file_ids.take (min preview_count stored_file_ids.length)
    let preview_messages := ((preview_file_ids.zip sendResults).filterMap (·.2))
    match preview_messages with
    | m :: ms =>
      some { cover_file_id := cover
             preview_message_id := some m
             preview_message_ids := some (m :: ms)
             preview_url := .channelLink m
             comic_files := []
             pages := stored_file_ids.length }
    | [] =>
      some { cover_file_id := cover
             preview_message_id := none
             preview_message_ids := none
             preview_url := .deepLink
             comic_files := (List.range stored_file_ids.length).map (fun i =>
               { file_id := stored_file_ids.getD i []
                 order := i + 1
                 storage_message_id := none })
             pages := stored_file_ids.length }

/-- The shared database stage of `web.upload_comic_archive` and the batch
variant: `stored_file_ids` holds (file_id, storage message id) pairs from the
media-group uploads, `previewResult` is the media-group preview send outcome
(all message ids, or `none` when it raised).  ComicFile rows are written
unconditionally here (web.py lines 1242–1255), with ascending `order` from 1 and
the storage message id recorded. -/
def upload_comic_archive_db (stored_file_ids : List (Str × Int))
    (previewResult : Option (List Int)) : UploadOutcome :=
  let preview_messages := (previewResult.getD [])
  { cover_file_id := ((stored_file_ids.head?).map (·.1)).getD []
    preview_message_id := preview_messages.head?
    preview_message_ids := if preview_messages = [] then none else some preview_messages
    preview_url := match preview_messages.head? with
      | some m => .channelLink m
      | none => .deepLink
    comic_files := (List.range stored_file_ids.length).map (fun i =>
      { file_id := ((stored_file_ids.getD i ([], 0)).1)
        order := i + 1
        storage_message_id := some ((stored_file_ids.getD i ([], 0)).2) })
    pages := stored_file_ids.length }

end Web

namespace Web

open Py Repo Bot

/-- C4 (the code at the failing input): a direct image upload of three images
whose preview posts all succeed persists zero ComicFile rows — the row-writing
loop sits inside the branch taken only when no preview message was sent — while
the response still reports `pages = 3`; the archive path's database stage, by
contrast, writes one row per stored image with ascending order from 1 and the
storage message ids recorded, regardless of preview success. -/
theorem C4_upload_comic_rows_dropped :
    ((upload_comic [("a.jpg".data, "f1".data), ("b.jpg".data, "f2".data),
        ("c.jpg".data, "f3".data)] 5 [some 100, some 101, some 102]).map
      (·.comic_files)) = some []
    ∧ ((upload_comic [("a.jpg".data, "f1".data), ("b.jpg".data, "f2".data),
        ("c.jpg".data, "f3".data)] 5 [some 100, some 101, some 102]).map
      (·.pages)) = some 3
    ∧ (upload_comic_archive_db [("f1".data, 11), ("f2".data, 12), ("f3".data, 13)]
        (some [100])).comic_files
      = [NewComicFile.mk "f1".data 1 (some 11), NewComicFile.mk "f2".data 2 (some 12),
         NewComicFile.mk "f3".data 3 (some 13)] := by
  refine ⟨by decide, by decide, by decide⟩

/-- The HTTP outcome of `DELETE /resources/{id}`. -/
inductive DeleteOutcome where
  | http404
  | http500AttributeError
  | http204
deriving DecidableEq

/-- `web.delete_resource`.  When the resource exists, the very first cleanup
step (web.py line 536) reads `resource.preview_message_ids`; the mapped
`Resource` class in `db.py` declares no such column or attribute (only the
singular `preview_message_id`), and SQLAlchemy's declarative instrumentation
adds no fallback, so the read raises `AttributeError` on every freshly loaded
row; `db_session` rolls the transaction back and re-raises, and FastAPI answers
500 — the row is never deleted. -/
def delete_resource (db : List Repo.Resource) (rid : Str) :
    DeleteOutcome × List Repo.Resource :=
  match db.find? (fun r => r.id == rid) with
  | none => (.http404, db)
  | some _ => (.http500AttributeError, db)

/-- One platform answer to a message-delete attempt. -/
inductive TgResp where
  | ok
  | retryAfter (secs : Nat)
  | notFoundErr
  | otherErr
deriving DecidableEq

/-- `web.delete_message_with_retry`: up to `fuel` attempts; flood control waits
and retries, "message not found / can't be deleted" is an already-resolved
state, other platform errors back off and retry; the function always returns a
`Bool` and never raises for a platform error. -/
def delete_message_with_retry : List TgResp → Nat → Bool
  | _, 0 => false
  | [], _ + 1 => false
  | r :: rest, fuel + 1 =>
    match r with
    | .ok => true
    | .retryAfter _ => delete_message_with_retry rest fuel
    | .notFoundErr => false
    | .otherErr => delete_message_with_retry rest fuel

/-- The remainder of `delete_resource` past the faulting attribute read
(web.py lines 543–594), as it would run with the plural preview-id list in hand:
best-effort platform deletes whose boolean results feed only logging counters,
then the unconditional database delete. -/
def delete_resource_cleanup (db : List Repo.Resource) (rid : Str)
    (preview_message_ids : List Int) (previewTraces : List (List TgResp))
    (storage_files : List Bot.ComicFileRow) (storageTraces : List (List TgResp)) :
    DeleteOutcome × List Repo.Resource :=
  let _deleted1 := (preview_message_ids.zip previewTraces).map
    (fun p => delete_message_with_retry p.2 3)
  let _deleted2 := (storage_files.zip storageTraces).map
    (fun p => delete_message_with_retry p.2 3)
  (.http204, db.filter (fun r => !(r.id == rid)))

/-- C5 (the code at the failing input): deleting an existing resource always
returns the 500 AttributeError outcome with the database unchanged (the claimed
204-with-row-removed is unreachable); only a missing resource yields 404.  The
claim's error-handling property does hold of the unreachable cleanup remainder:
for every trace of platform failures, it completes the database delete and
returns 204. -/
theorem C5_delete_resource_500 :
    (∀ (db : List Repo.Resource) (rid : Str) (r : Repo.Resource),
      db.find? (fun x => x.id == rid) = some r →
      delete_resource db rid = (.http500AttributeError, db))
    ∧ (∀ (db : List Repo.Resource) (rid : Str),
      db.find? (fun x => x.id == rid) = none →
      delete_resource db rid = (.http404, db))
    ∧ (∀ db rid pm traces sf straces,
      delete_resource_cleanup db rid pm traces sf straces
        = (.http204, db.filter (fun r => !(r.id == rid)))) := by
  refine ⟨?_, ?_, ?_⟩
  · intro db rid r hfind
    unfold delete_resource
    rw [hfind]
  · intro db rid hfind
    unfold delete_resource
    rw [hfind]
  · intro db rid pm traces sf straces
    rfl

/-- Witness for C5: a one-row database — the delete 500s and the row survives. -/
theorem C5_delete_resource_500_witness :
    delete_resource [Bot.freeComicRes] "c1".data
      = (.http500AttributeError, [Bot.freeComicRes])
    ∧ delete_resource [Bot.freeComicRes] "zz".data = (.http404, [Bot.freeComicRes]) := by
  have h := C5_delete_resource_500
  exact ⟨h.1 [Bot.freeComicRes] "c1".data Bot.freeComicRes (by decide),
    h.2.1 [Bot.freeComicRes] "zz".data (by decide)⟩

end Web

/-! ## Payment-gateway client (`src/services/payment_service.py`)

`hashlib.md5` is implemented bit-for-bit over byte lists (RFC 1321), with
32-bit words as `Nat` reduced modulo `2^32`. -/

namespace Payment

open Py

/-- The 64 MD5 sine-derived constants. -/
def mdK : List Nat :=
  [0xD76AA478, 0xE8C7B756, 0x242070DB, 0xC1BDCEEE,
   0xF57C0FAF, 0x4787C62A, 0xA8304613, 0xFD469501,
   0x698098D8, 0x8B44F7AF, 0xFFFF5BB1, 0x895CD7BE,
   0x6B901122, 0xFD987193, 0xA679438E, 0x49B40821,
   0xF61E2562, 0xC040B340, 0x265E5A51, 0xE9B6C7AA,
   0xD62F105D, 0x02441453, 0xD8A1E681, 0xE7D3FBC8,
   0x21E1CDE6, 0xC33707D6, 0xF4D50D87, 0x455A14ED,
   0xA9E3E905, 0xFCEFA3F8, 0x676F02D9, 0x8D2A4C8A,
   0xFFFA3942, 0x8771F681, 0x6D9D6122, 0xFDE5380C,
   0xA4BEEA44, 0x4BDECFA9, 0xF6BB4B60, 0xBEBFBC70,
   0x289B7EC6, 0xEAA127FA, 0xD4EF3085, 0x04881D05,
   0xD9D4D039, 0xE6DB99E5, 0x1FA27CF8, 0xC4AC5665,
   0xF4292244, 0x432AFF97, 0xAB9423A7, 0xFC93A039,
   0x655B59C3, 0x8F0CCC92, 0xFFEFF47D, 0x85845DD1,
   0x6FA87E4F, 0xFE2CE6E0, 0xA3014314, 0x4E0811A1,
   0xF7537E82, 0xBD3AF235, 0x2AD7D2BB, 0xEB86D391]

/-- The per-round left-rotation amounts. -/
def mdS : List Nat :=
  [7, 12, 17, 22, 7, 12, 17, 22, 7, 12, 17, 22, 7, 12, 17, 22,
   5, 9, 14, 20, 5, 9, 14, 20, 5, 9, 14, 20, 5, 9, 14, 20,
   4, 11, 16, 23, 4, 11, 16, 23, 4, 11, 16, 23, 4, 11, 16, 23,
   6, 10, 15, 21, 6, 10, 15, 21, 6, 10, 15, 21, 6, 10, 15, 21]

/-- 32-bit truncation. -/
def m32 (n : Nat) : Nat := n % 4294967296

/-- 32-bit bitwise complement. -/
def mnot (x : Nat) : Nat := 4294967295 - m32 x

/-- 32-bit left rotation. -/
def rotl (x c : Nat) : Nat := m32 (m32 x * 2 ^ c + m32 x / 2 ^ (32 - c))

/-- Split a byte list into 64-byte blocks (length assumed a multiple of 64);
fuel-driven so that it reduces in the kernel. -/
def toBlocksAux : Nat → List Nat → List (List Nat)
  | 0, _ => []
  | _ + 1, [] => []
  | fuel + 1, b :: bs => (b :: bs).take 64 :: toBlocksAux fuel ((b :: bs).drop 64)

/-- Split a byte list into 64-byte blocks. -/
def toBlocks (l : List Nat) : List (List Nat) := toBlocksAux l.length l

/-- Read the `i`-th little-endian 32-bit word of a block. -/
def word (block : List Nat) (i : Nat) : Nat :=
  block.getD (4 * i) 0 + 256 * block.getD (4 * i + 1) 0
    + 65536 * block.getD (4 * i + 2) 0 + 16777216 * block.getD (4 * i + 3) 0

/-- One MD5 round: state (a,b,c,d), block, round index. -/
def mdRound (st : Nat × Nat × Nat × Nat) (block : List Nat) (i : Nat) :
    Nat × Nat × Nat × Nat :=
  let a := st.1
  let b := st.2.1
  let c := st.2.2.1
  let d := st.2.2.2
  let f :=
    if i < 16 then m32 (Nat.lor (Nat.land b c) (Nat.land (mnot b) d))
    else if i < 32 then m32 (Nat.lor (Nat.land d b) (Nat.land (mnot d) c))
    else if i < 48 then m32 (Nat.xor b (Nat.xor c d))
    else m32 (Nat.xor c (Nat.lor b (mnot d)))
  let g :=
    if i < 16 then i
    else if i < 32 then (5 * i + 1) % 16
    else if i < 48 then (3 * i + 5) % 16
    else (7 * i) % 16
  let tmp := m32 (f + a + mdK.getD i 0 + word block g)
  (d, m32 (b + rotl tmp (mdS.getD i 0)), b, c)

/-- Process one 64-byte block. -/
def mdBlock (h : Nat × Nat × Nat × Nat) (block : List Nat) : Nat × Nat × Nat × Nat :=
  let st := (List.range 64).foldl (fun s i => mdRound s block i) h
  (m32 (h.1 + st.1), m32 (h.2.1 + st.2.1), m32 (h.2.2.1 + st.2.2.1),
   m32 (h.2.2.2 + st.2.2.2))

/-- MD5 padding: append `0x80`, zero-pad to 56 mod 64, append the bit length as
a 64-bit little-endian quantity. -/
def mdPad (msg : List Nat) : List Nat :=
  let bitLen := 8 * msg.length
  let padLen := (55 + 64 - msg.length % 64) % 64 + 1
  msg ++ [0x80] ++ List.replicate (padLen - 1) 0
    ++ (List.range 8).map (fun i => bitLen / 256 ^ i % 256)

/-- Little-endian bytes of a 32-bit word. -/
def wordBytes (x : Nat) : List Nat :=
  [x % 256, x / 256 % 256, x / 65536 % 256, x / 16777216 % 256]

/-- The 16 digest bytes of MD5. -/
def md5Bytes (msg : List Nat) : List Nat :=
  let init : Nat × Nat × Nat × Nat := (0x67452301, 0xEFCDAB89, 0x98BADCFE, 0x10325476)
  let fin := (toBlocks (mdPad msg)).foldl mdBlock init
  wordBytes fin.1 ++ wordBytes fin.2.1 ++ wordBytes fin.2.2.1 ++ wordBytes fin.2.2.2

/-- Lowercase hex digit. -/
def hexDigit (n : Nat) : Char :=
  if n < 10 then digitCh n
  else if n = 10 then 'a' else if n = 11 then 'b' else if n = 12 then 'c'
  else if n = 13 then 'd' else if n = 14 then 'e' else 'f'

/-- `hashlib.md5(...).hexdigest()`: the lowercase hex digest. -/
def md5Hex (msg : List Nat) : Str :=
  (md5Bytes msg).flatMap (fun b => [hexDigit (b / 16), hexDigit (b % 16)])

end Payment

namespace Payment

open Py

/-- Uppercase hex digit (as CPython's `urllib.parse.quote`). -/
def hexUpper (n : Nat) : Char :=
  if n < 10 then digitCh n
  else if n = 10 then 'A' else if n = 11 then 'B' else if n = 12 then 'C'
  else if n = 13 then 'D' else if n = 14 then 'E' else 'F'

/-- The characters `urllib.parse.quote` never escapes (letters, digits, `_.-~`). -/
def quoteSafe (c : Char) : Bool :=
  (65 ≤ c.toNat && c.toNat ≤ 90) || (97 ≤ c.toNat && c.toNat ≤ 122)
    || (48 ≤ c.toNat && c.toNat ≤ 57) || c.toNat == 95 || c.toNat == 46
    || c.toNat == 45 || c.toNat == 126

/-- `urllib.parse.quote_plus` on one character: safe characters pass, a space
becomes `+`, everything else is percent-escaped byte-wise over UTF-8. -/
def quotePlusChar (c : Char) : Str :=
  if quoteSafe c then [c]
  else if c = ' ' then ['+']
  else ((utf8Ch c).map (fun b => ['%', hexUpper (b / 16), hexUpper (b % 16)])).flatten

/-- `urllib.parse.quote_plus` (with `safe=''`, as `urlencode` uses it). -/
def quotePlus (s : Str) : Str := (s.map quotePlusChar).flatten

/-- Join with `&`. -/
def joinAmp : List Str → Str
  | [] => []
  | [p] => p
  | p :: rest => p ++ '&' :: joinAmp rest

/-- `urllib.parse.urlencode`: `quote_plus(k)=quote_plus(v)` pairs joined by `&`. -/
def urlencode (pairs : List (Str × Str)) : Str :=
  joinAmp (pairs.map (fun kv => quotePlus kv.1 ++ '=' :: quotePlus kv.2))

/-- Hex digit test of `urllib.parse.unquote`. -/
def isHexDigit (c : Char) : Bool :=
  (48 ≤ c.toNat && c.toNat ≤ 57) || (97 ≤ c.toNat && c.toNat ≤ 102)
    || (65 ≤ c.toNat && c.toNat ≤ 70)

/-- Value of a hex digit. -/
def hexVal (c : Char) : Nat :=
  if c.toNat ≤ 57 then c.toNat - 48
  else if c.toNat ≤ 70 then c.toNat - 55
  else c.toNat - 87

/-- Parser state of `urllib.parse.unquote`: between escapes, after a `%`, or
after `%H`. -/
inductive UqState where
  | ready
  | p0
  | p1 (h : Char)

/-- `urllib.parse.unquote` worker: maximal runs of `%XX` escapes accumulate
into `acc` and are UTF-8-decoded together (`errors="replace"`) when the run
ends; a malformed escape leaves its characters literal. -/
def unquoteSM (acc : List Nat) : UqState → Str → Str
  | .ready, [] => utf8DecodeReplace acc
  | .p0, [] => utf8DecodeReplace acc ++ ['%']
  | .p1 h, [] => utf8DecodeReplace acc ++ ['%', h]
  | .ready, c :: rest =>
    if c = '%' then unquoteSM acc .p0 rest
    else utf8DecodeReplace acc ++ c :: unquoteSM [] .ready rest
  | .p0, c :: rest =>
    if isHexDigit c then unquoteSM acc (.p1 c) rest
    else if c = '%' then (utf8DecodeReplace acc ++ ['%']) ++ unquoteSM [] .p0 rest
    else (utf8DecodeReplace acc ++ ['%']) ++ c :: unquoteSM [] .ready rest
  | .p1 h, c :: rest =>
    if isHexDigit c then unquoteSM (acc ++ [16 * hexVal h + hexVal c]) .ready rest
    else if c = '%' then (utf8DecodeReplace acc ++ ['%', h]) ++ unquoteSM [] .p0 rest
    else (utf8DecodeReplace acc ++ ['%', h]) ++ c :: unquoteSM [] .ready rest

/-- `urllib.parse.unquote`. -/
def unquote (s : Str) : Str := unquoteSM [] .ready s

/-- Python tuple comparison `(k1, v1) <= (k2, v2)` as used by
`sorted(filtered_data.items())`: key first, then value. -/
def pairLe (a b : Str × Str) : Prop :=
  lexLtB a.1 b.1 = true ∨ (a.1 = b.1 ∧ lexLeB a.2 b.2 = true)

instance : DecidableRel pairLe := fun a b => by
  unfold pairLe
  infer_instance

/-- `SharkPaymentService.generate_sign`: drop empty-valued parameters, sort by
ASCII order (Python tuple comparison), form `k=v&…` via `urlencode` then
`unquote` it back, append `&key=<sign_key>`, and take the lowercase hex MD5. -/
def generate_sign (sign_key : Str) (data : List (Str × Option Str)) : Str :=
  let filtered_data := data.filter (fun kv => kv.2 ≠ none ∧ kv.2 ≠ some [])
  let items : List (Str × Str) := filtered_data.map (fun kv => (kv.1, kv.2.getD []))
  let sorted_data := items.insertionSort pairLe
  let query_string := urlencode sorted_data
  let query_string2 := unquote query_string
  let sign_string := query_string2 ++ "&key=".data ++ sign_key
  md5Hex (utf8 sign_string)

/-- Space-to-plus substitution (the only effect the `urlencode`/`unquote` pair
leaves behind). -/
def mapPlus (s : Str) : Str := s.map (fun c => if c = ' ' then '+' else c)

/-- Modelled from the spec's words, amended: "the sorted raw `key=value` query
string" — raw characters except that every space appears as `+` — with
`&key=<signing key>` appended. -/
def rawPlusString (pairs : List (Str × Str)) : Str :=
  joinAmp (pairs.map (fun kv => mapPlus kv.1 ++ '=' :: mapPlus kv.2))

theorem charEq_of_toNat {a b : Char} (h : a.toNat = b.toNat) : a = b := by
  have h2 := congrArg mkChar h
  rwa [mkChar_toNat, mkChar_toNat] at h2

theorem lexLtB_irrefl (s : Str) : lexLtB s s = false := by
  induction s with
  | nil => rfl
  | cons c t ih => simp [lexLtB, ih]

theorem lexLtB_asymm : ∀ {a b : Str}, lexLtB a b = true → lexLtB b a = false := by
  intro a
  induction a with
  | nil =>
    intro b h
    cases b with
    | nil => rfl
    | cons d u => rfl
  | cons c t ih =>
    intro b h
    cases b with
    | nil => simp [lexLtB] at h
    | cons d u =>
      unfold lexLtB at h ⊢
      by_cases h1 : c.toNat < d.toNat
      · have h2 : ¬ d.toNat < c.toNat := by omega
        simp [h1, h2]
      · by_cases h2 : d.toNat < c.toNat
        · simp [h1, h2] at h
        · simp only [if_neg h1, if_neg h2] at h ⊢
          exact ih h

theorem lexLtB_conn : ∀ {a b : Str}, lexLtB a b = false → lexLtB b a = false → a = b := by
  intro a
  induction a with
  | nil =>
    intro b h1 h2
    cases b with
    | nil => rfl
    | cons d u => simp [lexLtB] at h1
  | cons c t ih =>
    intro b h1 h2
    cases b with
    | nil => simp [lexLtB] at h2
    | cons d u =>
      unfold lexLtB at h1 h2
      by_cases hcd : c.toNat < d.toNat
      · simp [hcd] at h1
      · by_cases hdc : d.toNat < c.toNat
        · simp [hdc] at h2
        · have hce : c = d := charEq_of_toNat (by omega)
          simp only [if_neg hcd, if_neg hdc] at h1
          simp only [if_neg hdc, if_neg hcd] at h2
          rw [hce, ih h1 h2]

theorem lexLtB_trans : ∀ {a b c : Str},
    lexLtB a b = true → lexLtB b c = true → lexLtB a c = true := by
  intro a
  induction a with
  | nil =>
    intro b c h1 h2
    cases b with
    | nil => simp [lexLtB] at h1
    | cons y ys =>
      cases c with
      | nil => simp [lexLtB] at h2
      | cons z zs => rfl
  | cons x xs ih =>
    intro b c h1 h2
    cases b with
    | nil => simp [lexLtB] at h1
    | cons y ys =>
      cases c with
      | nil => simp [lexLtB] at h2
      | cons z zs =>
        unfold lexLtB at h1 h2 ⊢
        by_cases hxy : x.toNat < y.toNat
        · by_cases hyz : y.toNat < z.toNat
          · simp [show x.toNat < z.toNat by omega]
          · by_cases hzy : z.toNat < y.toNat
            · simp [hyz, hzy] at h2
            · simp [show x.toNat < z.toNat by omega]
        · by_cases hyx : y.toNat < x.toNat
          · simp [hxy, hyx] at h1
          · simp only [if_neg hxy, if_neg hyx] at h1
            by_cases hyz : y.toNat < z.toNat
            · simp [show x.toNat < z.toNat by omega]
            · by_cases hzy : z.toNat < y.toNat
              · simp [hyz, hzy] at h2
              · simp only [if_neg hyz, if_neg hzy] at h2
                have hxz : ¬ x.toNat < z.toNat := by omega
                have hzx : ¬ z.toNat < x.toNat := by omega
                simp only [if_neg hxz, if_neg hzx]
                exact ih h1 h2

theorem lexLeB_total (a b : Str) : lexLeB a b = true ∨ lexLeB b a = true := by
  unfold lexLeB
  cases hba : lexLtB b a
  · left
    rfl
  · right
    rw [lexLtB_asymm hba]
    rfl

theorem lexLeB_trans {a b c : Str} (h1 : lexLeB a b = true) (h2 : lexLeB b c = true) :
    lexLeB a c = true := by
  unfold lexLeB at h1 h2 ⊢
  cases hca : lexLtB c a
  · rfl
  · exfalso
    by_cases hcb : lexLtB c b = true
    · simp [hcb] at h2
    · by_cases hbc : lexLtB b c = true
      · have := lexLtB_trans hbc hca
        simp [this] at h1
      · have hbcF : lexLtB b c = false := by
          cases h : lexLtB b c
          · rfl
          · exact absurd h hbc
        have hcbF : lexLtB c b = false := by
          cases h : lexLtB c b
          · rfl
          · exact absurd h hcb
        have := lexLtB_conn hbcF hcbF
        subst this
        simp [hca] at h1

theorem lexLeB_antisymm {a b : Str} (h1 : lexLeB a b = true) (h2 : lexLeB b a = true) :
    a = b := by
  unfold lexLeB at h1 h2
  have hba : lexLtB b a = false := by
    cases h : lexLtB b a
    · rfl
    · simp [h] at h1
  have hab : lexLtB a b = false := by
    cases h : lexLtB a b
    · rfl
    · simp [h] at h2
  exact lexLtB_conn hab hba

instance : IsTotal (Str × Str) pairLe := by
  constructor
  intro a b
  unfold pairLe
  cases hab : lexLtB a.1 b.1
  · cases hba : lexLtB b.1 a.1
    · have hk : a.1 = b.1 := lexLtB_conn hab hba
      rcases lexLeB_total a.2 b.2 with h | h
      · exact Or.inl (Or.inr ⟨hk, h⟩)
      · exact Or.inr (Or.inr ⟨hk.symm, h⟩)
    · exact Or.inr (Or.inl rfl)
  · exact Or.inl (Or.inl rfl)

instance : IsTrans (Str × Str) pairLe := by
  constructor
  intro a b c h1 h2
  unfold pairLe at h1 h2 ⊢
  rcases h1 with h1 | ⟨hk1, hv1⟩
  · rcases h2 with h2 | ⟨hk2, hv2⟩
    · exact Or.inl (lexLtB_trans h1 h2)
    · exact Or.inl (hk2 ▸ h1)
  · rcases h2 with h2 | ⟨hk2, hv2⟩
    · exact Or.inl (hk1 ▸ h2)
    · exact Or.inr ⟨hk1.trans hk2, lexLeB_trans hv1 hv2⟩

instance : IsAntisymm (Str × Str) pairLe := by
  constructor
  intro a b h1 h2
  unfold pairLe at h1 h2
  rcases h1 with h1 | ⟨hk1, hv1⟩
  · rcases h2 with h2 | ⟨hk2, hv2⟩
    · have := lexLtB_asymm h1
      simp [this] at h2
    · rw [hk2] at h1
      simp [lexLtB_irrefl] at h1
  · rcases h2 with h2 | ⟨hk2, hv2⟩
    · rw [hk1] at h2
      simp [lexLtB_irrefl] at h2
    · have hv : a.2 = b.2 := lexLeB_antisymm hv1 hv2
      rcases a with ⟨a1, a2⟩
      rcases b with ⟨b1, b2⟩
      simp only at hk1 hv
      rw [hk1, hv]

/-- Sorting is invariant under permutation of the input (so the signature is
independent of the input parameter ordering). -/
theorem insertionSort_perm_eq {l₁ l₂ : List (Str × Str)} (h : l₁.Perm l₂) :
    l₁.insertionSort pairLe = l₂.insertionSort pairLe :=
  List.eq_of_perm_of_sorted
    ((List.perm_insertionSort pairLe l₁).trans
      (h.trans (List.perm_insertionSort pairLe l₂).symm))
    (List.sorted_insertionSort pairLe l₁) (List.sorted_insertionSort pairLe l₂)

theorem hexUpper_facts : ∀ n < 16,
    isHexDigit (hexUpper n) = true ∧ hexVal (hexUpper n) = n ∧ hexUpper n ≠ '%' := by
  decide

theorem utf8DecodeReplace_nil : utf8DecodeReplace [] = [] := rfl

theorem utf8Ch_lt_256 (c : Char) : ∀ b ∈ utf8Ch c, b < 256 := by
  intro b hb
  have hv : c.toNat < 0x110000 := by
    rcases char_toNat_valid c with h | h
    · omega
    · omega
  simp only [utf8Ch] at hb
  split_ifs at hb with h1 h2 h3 <;>
    simp only [List.mem_cons, List.mem_singleton, List.not_mem_nil, or_false] at hb <;>
    rcases hb with hb | hb | hb | hb <;> omega

theorem unquoteSM_esc (acc : List Nat) (b : Nat) (hb : b < 256) (r : Str) :
    unquoteSM acc .ready ('%' :: hexUpper (b / 16) :: hexUpper (b % 16) :: r)
      = unquoteSM (acc ++ [b]) .ready r := by
  have e1 := hexUpper_facts (b / 16) (by omega)
  have e2 := hexUpper_facts (b % 16) (by omega)
  have hbeq : 16 * (b / 16) + b % 16 = b := by omega
  simp only [unquoteSM, if_pos rfl, e1.1, e2.1, if_pos, e1.2.1, e2.2.1, hbeq]

theorem unquoteSM_escList (bs : List Nat) (hbs : ∀ b ∈ bs, b < 256) (acc : List Nat)
    (r : Str) :
    unquoteSM acc .ready
        ((bs.map (fun b => ['%', hexUpper (b / 16), hexUpper (b % 16)])).flatten ++ r)
      = unquoteSM (acc ++ bs) .ready r := by
  induction bs generalizing acc with
  | nil => simp
  | cons b t ih =>
    simp only [List.map_cons, List.flatten_cons, List.append_assoc, List.cons_append,
      List.nil_append]
    rw [unquoteSM_esc acc b (hbs b (by simp)) _]
    rw [ih (fun x hx => hbs x (by simp [hx])) (acc ++ [b])]
    simp

theorem unquoteSM_plain (acc : List Nat) {c : Char} (hc : ¬ c = '%') (r : Str) :
    unquoteSM acc .ready (c :: r) = utf8DecodeReplace acc ++ c :: unquoteSM [] .ready r := by
  simp only [unquoteSM, if_neg hc]

theorem quoteSafe_ne {c : Char} (h : quoteSafe c = true) : ¬ c = '%' ∧ ¬ c = ' ' := by
  constructor <;> intro he <;> subst he <;> exact absurd h (by decide)

theorem quotePlus_cons (c : Char) (s : Str) :
    quotePlus (c :: s) = quotePlusChar c ++ quotePlus s := by
  simp [quotePlus]

theorem mapPlus_cons (c : Char) (s : Str) :
    mapPlus (c :: s) = (if c = ' ' then '+' else c) :: mapPlus s := rfl

theorem unquoteSM_quotePlus (t : Str)
    (ht : t = [] ∨ ∃ c t', t = c :: t' ∧ ¬ c = '%') :
    ∀ (s p : Str),
    unquoteSM (utf8 p) .ready (quotePlus s ++ t)
      = p ++ mapPlus s ++ unquoteSM [] .ready t := by
  intro s
  induction s with
  | nil =>
    intro p
    simp only [quotePlus, List.map_nil, List.flatten_nil, List.nil_append, mapPlus,
      List.append_nil]
    rcases ht with h | ⟨c, t', h, hc⟩
    · subst h
      show utf8DecodeReplace (utf8 p) = p ++ utf8DecodeReplace []
      rw [utf8DecodeReplace_nil, List.append_nil]
      exact utf8DecodeWith_encode_nil _ p
    · subst h
      rw [unquoteSM_plain _ hc, unquoteSM_plain [] hc]
      rw [utf8DecodeReplace_nil]
      rw [show utf8DecodeReplace (utf8 p) = p from utf8DecodeWith_encode_nil _ p]
      simp
  | cons c s' ih =>
    intro p
    have ih0 := ih []
    rw [show utf8 ([] : Str) = [] from rfl] at ih0
    rw [quotePlus_cons, mapPlus_cons, List.append_assoc]
    by_cases hsafe : quoteSafe c = true
    · have hne := quoteSafe_ne hsafe
      have hq : quotePlusChar c = [c] := by
        unfold quotePlusChar
        rw [if_pos hsafe]
      rw [hq, List.singleton_append]
      rw [unquoteSM_plain _ hne.1]
      rw [show utf8DecodeReplace (utf8 p) = p from utf8DecodeWith_encode_nil _ p]
      rw [ih0]
      simp [hne.2]
    · by_cases hspace : c = ' '
      · subst hspace
        have hq : quotePlusChar ' ' = ['+'] := by
          unfold quotePlusChar
          rw [if_neg hsafe, if_pos rfl]
        rw [hq, List.singleton_append]
        rw [unquoteSM_plain _ (by decide)]
        rw [show utf8DecodeReplace (utf8 p) = p from utf8DecodeWith_encode_nil _ p]
        rw [ih0]
        simp
      · have hq : quotePlusChar c
            = ((utf8Ch c).map (fun b => ['%', hexUpper (b / 16), hexUpper (b % 16)])).flatten := by
          unfold quotePlusChar
          rw [if_neg hsafe, if_neg hspace]
        rw [hq]
        rw [unquoteSM_escList (utf8Ch c) (utf8Ch_lt_256 c) (utf8 p) _]
        rw [show utf8 p ++ utf8Ch c = utf8 (p ++ [c]) from by
          rw [utf8_append]
          simp [utf8]]
        rw [ih (p ++ [c])]
        simp [hspace]

theorem unquoteSM_pair (k v : Str) (t : Str)
    (ht : t = [] ∨ ∃ c t', t = c :: t' ∧ ¬ c = '%') :
    unquoteSM [] .ready ((quotePlus k ++ '=' :: quotePlus v) ++ t)
      = (mapPlus k ++ '=' :: mapPlus v) ++ unquoteSM [] .ready t := by
  have hk := unquoteSM_quotePlus ('=' :: (quotePlus v ++ t))
    (Or.inr ⟨'=', quotePlus v ++ t, rfl, by decide⟩) k []
  rw [show utf8 ([] : Str) = [] from rfl] at hk
  have hv := unquoteSM_quotePlus t ht v []
  rw [show utf8 ([] : Str) = [] from rfl] at hv
  rw [List.append_assoc, List.cons_append]
  rw [hk]
  rw [unquoteSM_plain [] (by decide)]
  rw [utf8DecodeReplace_nil]
  rw [hv]
  simp

/-- The `urlencode`/`unquote` pair in `generate_sign` collapses to the raw
query string except that every space is left as `+`. -/
theorem unquote_urlencode (pairs : List (Str × Str)) :
    unquote (urlencode pairs) = rawPlusString pairs := by
  induction pairs with
  | nil => rfl
  | cons kv rest ih =>
    cases rest with
    | nil =>
      show unquoteSM [] .ready (joinAmp [quotePlus kv.1 ++ '=' :: quotePlus kv.2]) = _
      rw [show joinAmp [quotePlus kv.1 ++ '=' :: quotePlus kv.2]
          = quotePlus kv.1 ++ '=' :: quotePlus kv.2 from rfl]
      rw [← List.append_nil (quotePlus kv.1 ++ '=' :: quotePlus kv.2)]
      rw [unquoteSM_pair kv.1 kv.2 [] (Or.inl rfl)]
      show _ = joinAmp [mapPlus kv.1 ++ '=' :: mapPlus kv.2]
      rw [show joinAmp [mapPlus kv.1 ++ '=' :: mapPlus kv.2]
          = mapPlus kv.1 ++ '=' :: mapPlus kv.2 from rfl]
      rw [show unquoteSM [] .ready [] = ([] : Str) from rfl]
      simp
    | cons kv2 rest2 =>
      show unquoteSM [] .ready
          ((quotePlus kv.1 ++ '=' :: quotePlus kv.2)
            ++ '&' :: joinAmp ((kv2 :: rest2).map
              (fun p => quotePlus p.1 ++ '=' :: quotePlus p.2))) = _
      rw [unquoteSM_pair kv.1 kv.2 _ (Or.inr ⟨'&', _, rfl, by decide⟩)]
      rw [unquoteSM_plain [] (by decide)]
      rw [utf8DecodeReplace_nil]
      have ih' : unquoteSM [] .ready
          (joinAmp ((kv2 :: rest2).map (fun p => quotePlus p.1 ++ '=' :: quotePlus p.2)))
          = rawPlusString (kv2 :: rest2) := ih
      rw [ih']
      rfl

/-- The items actually signed: empty-valued parameters dropped, then sorted by
Python tuple comparison. -/
def sortedItems (data : List (Str × Option Str)) : List (Str × Str) :=
  ((data.filter (fun kv => kv.2 ≠ none ∧ kv.2 ≠ some [])).map
    (fun kv => (kv.1, kv.2.getD []))).insertionSort pairLe

theorem generate_sign_eq (key : Str) (data : List (Str × Option Str)) :
    generate_sign key data
      = md5Hex (utf8 (rawPlusString (sortedItems data) ++ "&key=".data ++ key)) := by
  simp only [generate_sign, sortedItems, unquote_urlencode]

theorem sortedItems_append_none (data : List (Str × Option Str)) (k : Str) :
    sortedItems (data ++ [(k, none)]) = sortedItems data := by
  simp [sortedItems, List.filter_append]

theorem sortedItems_append_empty (data : List (Str × Option Str)) (k : Str) :
    sortedItems (data ++ [(k, some [])]) = sortedItems data := by
  simp [sortedItems, List.filter_append]

/-- C6: the payment-gateway signature is deterministic and independent of the
ordering of the input parameter map, and parameters whose value is absent or
the empty string are excluded; amended, the result is the lowercase hex MD5 of
the sorted `key=value` query string with every space rendered as `+` (not of
the raw string) with `&key=<signing key>` appended. -/
theorem C6_generate_sign_algebra (key : Str) (d₁ d₂ : List (Str × Option Str))
    (k : Str) (h : d₁.Perm d₂) :
    generate_sign key d₁ = generate_sign key d₂
    ∧ generate_sign key (d₁ ++ [(k, none)]) = generate_sign key d₁
    ∧ generate_sign key (d₁ ++ [(k, some [])]) = generate_sign key d₁
    ∧ generate_sign key d₁
        = md5Hex (utf8 (rawPlusString (sortedItems d₁) ++ "&key=".data ++ key)) := by
  refine ⟨?_, ?_, ?_, generate_sign_eq key d₁⟩
  · rw [generate_sign_eq key d₁, generate_sign_eq key d₂]
    have hp : sortedItems d₁ = sortedItems d₂ :=
      insertionSort_perm_eq
        ((h.filter (fun kv => decide (kv.2 ≠ none ∧ kv.2 ≠ some []))).map
          (fun kv => (kv.1, kv.2.getD [])))
    rw [hp]
  · rw [generate_sign_eq key (d₁ ++ [(k, none)]), generate_sign_eq key d₁,
      sortedItems_append_none]
  · rw [generate_sign_eq key (d₁ ++ [(k, some [])]), generate_sign_eq key d₁,
      sortedItems_append_empty]

/-- Witness: with signing key `K`, the signature of `b=2, a=1` equals that of
`a=1, b=2, c=` (empty-valued `c` dropped, order irrelevant). -/
theorem C6_generate_sign_algebra_witness :
    generate_sign "K".data [("b".data, some "2".data), ("a".data, some "1".data)]
      = generate_sign "K".data
          [("a".data, some "1".data), ("b".data, some "2".data), ("c".data, some [])] := by
  have h1 := (C6_generate_sign_algebra "K".data
    [("b".data, some "2".data), ("a".data, some "1".data)]
    [("a".data, some "1".data), ("b".data, some "2".data)] "c".data (by decide)).1
  have h2 := (C6_generate_sign_algebra "K".data
    [("a".data, some "1".data), ("b".data, some "2".data)]
    [("a".data, some "1".data), ("b".data, some "2".data)] "c".data (List.Perm.refl _)).2.2.1
  exact h1.trans h2.symm

set_option maxRecDepth 100000 in
set_option maxHeartbeats 1000000 in
/-- Counterexample to the claim's "raw key=value query string": a value with a
space is signed with the space as `+` (the `urlencode`/`unquote` round trip is
not the identity on spaces), so the digest differs from the raw-string MD5. -/
theorem C6_raw_query_string_counterexample :
    generate_sign "K".data [("a".data, some "x y".data)]
        = md5Hex (utf8 ("a=x+y&key=K".data))
    ∧ ¬ generate_sign "K".data [("a".data, some "x y".data)]
        = md5Hex (utf8 ("a=x y&key=K".data)) := by
  constructor
  · decide
  · decide



end Payment
